import Mathlib

/-!
Verification of the statistical signature-extraction core of the
CFReT compound prioritization analysis repository (module signatures.py).

The embedding models p-values as rational numbers, with a missing value
(the floating not-a-number that the source stores on a failed test)
represented as the value none of an Option type.  Profiles are tables of
named rational columns.  The external statistical routines from scipy and
statsmodels (two-sample KS test, Welch t-test, permutation test) are
parameters of the development: they are arbitrary functions that may read
the ambient process-wide NumPy random state, which is modelled explicitly
as a value threaded through the orchestrator.  The multiple-testing
correction multipletests with the fdr_bh method is embedded directly from
its statsmodels implementation: argsort with not-a-number entries last,
scaling by total count over rank, a reversed cumulative minimum (in which
a not-a-number entry absorbs, as np.minimum propagates it), clipping at
one, and scattering back to the original positions.
-/

/-- Ambient process-wide NumPy random-generator state. -/
abbrev GlobalRng := Nat

/-- A p-value: none models the floating not-a-number value. -/
abbrev PVal := Option ℚ

/-- The Python exceptions that the source raises or catches. -/
inductive PyErr where
  | valueError : String → PyErr
  | typeError : String → PyErr
  | shapeError : String → PyErr
  | columnNotFound : String → PyErr
deriving Repr, DecidableEq

/-- An external two-sample test (scipy ks_2samp or statsmodels ttest_ind):
given the ambient random state and the two value columns it either returns
a p-value or raises. -/
abbrev TestFn := GlobalRng → List ℚ → List ℚ → Except PyErr ℚ

/-- An external permutation test (scipy permutation_test): given the ambient
random state, the resample count, the explicit seed and the two value
columns it either returns a p-value or raises. -/
abbrev PermTestFn := GlobalRng → Nat → Nat → List ℚ → List ℚ → Except PyErr ℚ

/-- A profile: a table whose columns are named lists of numbers (the
metadata columns of the real tables play no role in the core). -/
structure Profile where
  cols : List (String × List ℚ)
deriving Repr, DecidableEq

/-- Column access ref_profiles[name]: the first column with that name, or
none when the column is absent (polars raises ColumnNotFoundError). -/
def Profile.get (p : Profile) (name : String) : Option (List ℚ) :=
  (p.cols.find? (fun c => c.1 == name)).map (fun c => c.2)

/-- np.random.seed: resets the process-wide random state from the seed. -/
def np_random_seed (seed : Nat) (_g : GlobalRng) : GlobalRng := seed

/-- Python dict assignment d[k] = v: an existing key keeps its position and
gets the new value, a new key is appended. -/
def dictInsert (d : List (String × PVal)) (k : String) (v : PVal) :
    List (String × PVal) :=
  if d.any (fun kv => kv.1 == k) then
    d.map (fun kv => if kv.1 == k then (k, v) else kv)
  else d ++ [(k, v)]

/-- The per-feature loop of ks_test and the value part of the permutation
loop: each feature is inserted into the dict with its computed p-value. -/
def dict_loop (step : String → PVal) :
    List (String × PVal) → List String → List (String × PVal)
  | d, [] => d
  | d, f :: fs => dict_loop step (dictInsert d f (step f)) fs

/-- A per-feature loop whose step may raise an uncaught exception, which
aborts the whole batch (the welchs_ttest and permutation loops). -/
def dict_loopE (step : String → Except PyErr PVal) :
    List (String × PVal) → List String → Except PyErr (List (String × PVal))
  | d, [] => .ok d
  | d, f :: fs =>
    match step f with
    | .error e => .error e
    | .ok pv => dict_loopE step (dictInsert d f pv) fs

/-- Body of the ks_test loop: the column lookups and the ks_2samp call are
all inside the try block and every exception is caught, recording a
not-a-number p-value for the feature. -/
def ks_step (ks2samp : TestFn) (g : GlobalRng) (ref_profiles exp_profiles : Profile)
    (f : String) : PVal :=
  match ref_profiles.get f with
  | none => none
  | some rv =>
    match exp_profiles.get f with
    | none => none
    | some ev =>
      match ks2samp g rv ev with
      | .error _ => none
      | .ok v => some v

/-- Body of the welchs_ttest loop: only ValueError is caught (recording a
not-a-number p-value); any other exception, such as the polars
ColumnNotFoundError from a missing column, propagates and aborts. -/
def welch_step (ttest : TestFn) (g : GlobalRng) (ref_profiles exp_profiles : Profile)
    (f : String) : Except PyErr PVal :=
  match ref_profiles.get f with
  | none => .error (.columnNotFound f)
  | some rv =>
    match exp_profiles.get f with
    | none => .error (.columnNotFound f)
    | some ev =>
      match ttest g rv ev with
      | .ok v => .ok (some v)
      | .error (.valueError _) => .ok none
      | .error e => .error e

/-- Body of the permutation loop: the column lookups happen before the try
block, so a missing column aborts; the permutation_test call itself is
inside the try and every exception there is caught. -/
def perm_step (ptest : PermTestFn) (g : GlobalRng) (ref_profiles exp_profiles : Profile)
    (n_resamples seed : Nat) (f : String) : Except PyErr PVal :=
  match ref_profiles.get f with
  | none => .error (.columnNotFound f)
  | some rv =>
    match exp_profiles.get f with
    | none => .error (.columnNotFound f)
    | some ev =>
      match ptest g n_resamples seed rv ev with
      | .error _ => .ok none
      | .ok v => .ok (some v)

/-- np.minimum on possibly-not-a-number values: a not-a-number operand
makes the result not-a-number. -/
def nanMin : PVal → PVal → PVal
  | none, _ => none
  | _, none => none
  | some a, some b => some (min a b)

/-- Insertion step of the sort used to model np.argsort. -/
def insert_sorted (le : α → α → Bool) (x : α) : List α → List α
  | [] => [x]
  | y :: ys => if le x y then x :: y :: ys else y :: insert_sorted le x ys

/-- Comparison sort used to model np.argsort over index-value pairs. -/
def sort_by_key (le : α → α → Bool) : List α → List α
  | [] => []
  | x :: xs => insert_sorted le x (sort_by_key le xs)

/-- Ordering on indexed p-values as np.argsort sees them: numbers in
numeric order, not-a-number entries after every number. -/
def pvalLe : (Nat × PVal) → (Nat × PVal) → Bool
  | (_, some a), (_, some b) => a ≤ b
  | (_, some _), (_, none) => true
  | (_, none), (_, some _) => false
  | (_, none), (_, none) => true

/-- Benjamini-Hochberg scaling step of fdrcorrection: the sorted p-value of
rank r (one-based) is multiplied by the total count n and divided by r
(written on the numerator and the denominator, which is the same rational
number); a not-a-number entry stays not-a-number. -/
def rank_scale (n : Nat) : Nat → List (Nat × PVal) → List (Nat × PVal)
  | _, [] => []
  | r, (i, p) :: rest =>
    (i, p.map (fun v => mkRat (v.num * (n : Int)) (v.den * r))) :: rank_scale n (r + 1) rest

/-- Running np.minimum.accumulate with a given accumulator; a not-a-number
accumulator or entry absorbs, as np.minimum propagates not-a-number. -/
def cum_nan_min : PVal → List (Nat × PVal) → List (Nat × PVal)
  | _, [] => []
  | acc, (i, p) :: rest =>
    let m := nanMin acc p
    (i, m) :: cum_nan_min m rest

/-- np.minimum.accumulate: the first entry is kept as is and then the
running minimum is threaded through. -/
def cum_nan_min_from : List (Nat × PVal) → List (Nat × PVal)
  | [] => []
  | (i, p) :: rest => (i, p) :: cum_nan_min p rest

/-- The statsmodels fdr_bh correction: argsort the p-values (not-a-number
last), divide by the empirical cdf factor rank over n, take the reversed
cumulative minimum, clip at one, and scatter the corrected values back to
the original positions. -/
def fdr_bh (p_values : List PVal) : List PVal :=
  let n := p_values.length
  let sorted := sort_by_key pvalLe p_values.enum
  let raw := rank_scale n 1 sorted
  let acc := (cum_nan_min_from raw.reverse).reverse
  let clipped := acc.map (fun ip => (ip.1, ip.2.map (fun v => min v 1)))
  (List.range n).map
    (fun i => (clipped.find? (fun ip => ip.1 == i)).bind (fun ip => ip.2))

/-- The statsmodels bonferroni correction, which multipletests applies to
the sorted values and scatters back; elementwise it multiplies each
p-value by the count and clips at one, leaving not-a-number in place. -/
def bonferroni (p_values : List PVal) : List PVal :=
  p_values.map (fun p =>
    p.map (fun v => min (mkRat (v.num * (p_values.length : Int)) v.den) 1))

/-- The correction method names modelled from multipletests. -/
def correction_methods : List String := ["fdr_bh", "bonferroni"]

/-- p_val_correction: dispatches multipletests on the method name and
returns the corrected p-values; an unrecognized method raises ValueError
inside multipletests. -/
def p_val_correction (p_values : List PVal) (method : String) :
    Except PyErr (List PVal) :=
  if method == "fdr_bh" then .ok (fdr_bh p_values)
  else if method == "bonferroni" then .ok (bonferroni p_values)
  else .error (.valueError ("method not recognized: " ++ method))

/-- The polars expression when(corrected_p_value less than threshold) then
True otherwise False: a not-a-number corrected p-value compares false and
falls to the otherwise branch. -/
def significance_flag (corrected : PVal) (sig_threshold : ℚ) : Bool :=
  match corrected with
  | none => false
  | some v => decide (v < sig_threshold)

/-- One row of the result dataframe built by the statistical tests. -/
structure FeatureRow where
  features : String
  p_value : PVal
  corrected_p_value : PVal
  is_significant : Bool
deriving Repr, DecidableEq

/-- Zipping the features column, the raw p-value column and the corrected
p-value column of the result dataframe. -/
def mk_pval_rows : List String → List PVal → List PVal →
    List (String × PVal × PVal)
  | f :: fs, p :: ps, c :: cs => (f, p, c) :: mk_pval_rows fs ps cs
  | _, _, _ => []

/-- add_significance_label: adds the is_significant column computed from
the corrected p-value and the threshold. -/
def add_significance_label (rows : List (String × PVal × PVal))
    (sig_threshold : ℚ) : List FeatureRow :=
  rows.map (fun r => ⟨r.1, r.2.1, r.2.2, significance_flag r.2.2 sig_threshold⟩)

/-- split_morphology_features: the rows whose significance flag is set give
the on-morphology list, the remaining rows the off-morphology list, both
in dataframe order. -/
def split_morphology_features (pval_df : List FeatureRow) :
    List String × List String :=
  ((pval_df.filter (fun r => r.is_significant)).map (fun r => r.features),
   (pval_df.filter (fun r => !r.is_significant)).map (fun r => r.features))

/-- The threshold-free part shared by the three tests: correct the raw
p-values and zip the three columns. -/
def assemble_core (feats : List String) (pvals : List PVal) (cm : String) :
    Except PyErr (List (String × PVal × PVal)) :=
  match p_val_correction pvals cm with
  | .error e => .error e
  | .ok cs => .ok (mk_pval_rows feats pvals cs)

/-- ks_test up to the significance labelling: run the per-feature loop,
build the dataframe with the requested feature list as the features column
and the dict values as the p-value column (polars raises ShapeError when
the two columns have different lengths), then correct. -/
def ks_core (ks2samp : TestFn) (g : GlobalRng) (ref_profiles exp_profiles : Profile)
    (morph_feats : List String) (cm : String) :
    Except PyErr (List (String × PVal × PVal)) :=
  let pvals := dict_loop (ks_step ks2samp g ref_profiles exp_profiles) [] morph_feats
  if morph_feats.length = pvals.length then
    assemble_core morph_feats (pvals.map (fun kv => kv.2)) cm
  else .error (.shapeError "series have different lengths")

/-- ks_test: the core followed by the significance labelling. -/
def ks_test (ks2samp : TestFn) (g : GlobalRng) (ref_profiles exp_profiles : Profile)
    (morph_feats : List String) (correction_method : String)
    (sig_threshold : ℚ) : Except PyErr (List FeatureRow) :=
  (ks_core ks2samp g ref_profiles exp_profiles morph_feats correction_method).map
    (fun rs => add_significance_label rs sig_threshold)

/-- permutation up to the significance labelling: the dataframe takes both
the features column and the p-value column from the dict, so duplicated
requested names collapse silently. -/
def permutation_core (ptest : PermTestFn) (g : GlobalRng)
    (ref_profiles exp_profiles : Profile) (morph_feats : List String)
    (n_resamples : Nat) (cm : String) (seed : Nat) :
    Except PyErr (List (String × PVal × PVal)) :=
  match dict_loopE (perm_step ptest g ref_profiles exp_profiles n_resamples seed)
      [] morph_feats with
  | .error e => .error e
  | .ok pvals =>
    assemble_core (pvals.map (fun kv => kv.1)) (pvals.map (fun kv => kv.2)) cm

/-- permutation: the core followed by the significance labelling. -/
def permutation (ptest : PermTestFn) (g : GlobalRng)
    (ref_profiles exp_profiles : Profile) (morph_feats : List String)
    (n_resamples : Nat) (correction_method : String) (sig_threshold : ℚ)
    (seed : Nat) : Except PyErr (List FeatureRow) :=
  (permutation_core ptest g ref_profiles exp_profiles morph_feats n_resamples
      correction_method seed).map
    (fun rs => add_significance_label rs sig_threshold)

/-- welchs_ttest up to the significance labelling: the p-value column is
rebuilt by looking every requested feature up in the dict, so its length
always matches the features column. -/
def welch_core (ttest : TestFn) (g : GlobalRng) (ref_profiles exp_profiles : Profile)
    (morph_feats : List String) (cm : String) :
    Except PyErr (List (String × PVal × PVal)) :=
  match dict_loopE (welch_step ttest g ref_profiles exp_profiles) [] morph_feats with
  | .error e => .error e
  | .ok pvals =>
    assemble_core morph_feats
      (morph_feats.map
        (fun f => (pvals.find? (fun kv => kv.1 == f)).bind (fun kv => kv.2)))
      cm

/-- welchs_ttest: the core followed by the significance labelling. -/
def welchs_ttest (ttest : TestFn) (g : GlobalRng)
    (ref_profiles exp_profiles : Profile) (morph_feats : List String)
    (correction_method : String) (sig_threshold : ℚ) :
    Except PyErr (List FeatureRow) :=
  (welch_core ttest g ref_profiles exp_profiles morph_feats correction_method).map
    (fun rs => add_significance_label rs sig_threshold)

/-- The method names accepted by get_signatures. -/
def supported_methods : List String := ["ks_test", "permutation_test", "welchs_ttest"]

/-- The if-elif dispatch of get_signatures on the validated method name. -/
def run_stat_test (ks2samp ttest : TestFn) (ptest : PermTestFn) (g : GlobalRng)
    (ref_profiles exp_profiles : Profile) (morph_feats : List String)
    (method fdr_method : String) (p_threshold : ℚ)
    (permutation_resamples seed : Nat) : Except PyErr (List FeatureRow) :=
  if method == "ks_test" then
    ks_test ks2samp g ref_profiles exp_profiles morph_feats fdr_method p_threshold
  else if method == "permutation_test" then
    permutation ptest g ref_profiles exp_profiles morph_feats
      permutation_resamples fdr_method p_threshold seed
  else
    welchs_ttest ttest g ref_profiles exp_profiles morph_feats fdr_method p_threshold

/-- get_signatures: seed the process-wide random state, validate the method
name, dispatch to the chosen test and split the labelled rows into the
on-morphology and off-morphology feature lists.  The result carries the
ambient random state left behind by the call.  The runtime type checks of
the source are statically enforced by the embedding types. -/
def get_signatures (ks2samp ttest : TestFn) (ptest : PermTestFn) (g : GlobalRng)
    (ref_profiles exp_profiles : Profile) (morph_feats : List String)
    (method fdr_method : String) (p_threshold : ℚ)
    (permutation_resamples seed : Nat) :
    Except PyErr (List String × List String) × GlobalRng :=
  let g' := np_random_seed seed g
  if method ∈ supported_methods then
    match run_stat_test ks2samp ttest ptest g' ref_profiles exp_profiles morph_feats
        method fdr_method p_threshold permutation_resamples seed with
    | .error e => (.error e, g')
    | .ok pvals_df => (.ok (split_morphology_features pvals_df), g')
  else (.error (.valueError (method ++ " is not a valid method")), g')

/-- The raw external call that get_signatures makes for one feature under a
given method: a repackaging of the per-feature source calls, used to state
per-feature failure hypotheses. -/
def feat_raw (ks2samp ttest : TestFn) (ptest : PermTestFn) (method : String)
    (g : GlobalRng) (ref_profiles exp_profiles : Profile)
    (n_resamples seed : Nat) (f : String) : Except PyErr ℚ :=
  match ref_profiles.get f, exp_profiles.get f with
  | some rv, some ev =>
    if method == "ks_test" then ks2samp g rv ev
    else if method == "permutation_test" then ptest g n_resamples seed rv ev
    else ttest g rv ev
  | _, _ => .error (.columnNotFound f)

/-- Whether an exception from a statistical routine is the recoverable
kind that every per-feature handler records as not-a-number. -/
def is_value_error : PyErr → Bool
  | .valueError _ => true
  | _ => false

/-- Whether a per-feature call either succeeded or failed recoverably. -/
def recoverable : Except PyErr ℚ → Bool
  | .ok _ => true
  | .error e => is_value_error e

/-- The value a per-feature handler ends up recording from an external
call once every exception is caught: not-a-number on any error. -/
def except_to_pval : Except PyErr ℚ → PVal
  | .ok v => some v
  | .error _ => none

/-- Unwrapping a loop step that is known not to abort. -/
def okvalP : Except PyErr PVal → PVal
  | .ok v => v
  | .error _ => none

/-- The key list of a Python dict after inserting a sequence of keys,
starting from a given key list: first occurrences in order. -/
def dict_keys_after (ks : List String) : List String → List String
  | [] => ks
  | f :: fs => if f ∈ ks then dict_keys_after ks fs else dict_keys_after (ks ++ [f]) fs

/-- The threshold-free dispatch corresponding to run_stat_test. -/
def run_stat_core (ks2samp ttest : TestFn) (ptest : PermTestFn) (g : GlobalRng)
    (ref_profiles exp_profiles : Profile) (morph_feats : List String)
    (method fdr_method : String) (permutation_resamples seed : Nat) :
    Except PyErr (List (String × PVal × PVal)) :=
  if method == "ks_test" then
    ks_core ks2samp g ref_profiles exp_profiles morph_feats fdr_method
  else if method == "permutation_test" then
    permutation_core ptest g ref_profiles exp_profiles morph_feats
      permutation_resamples fdr_method seed
  else
    welch_core ttest g ref_profiles exp_profiles morph_feats fdr_method

theorem dictInsert_mapform (step : String → PVal) (ks : List String) (f : String) :
    dictInsert (ks.map (fun k => (k, step k))) f (step f)
      = (if f ∈ ks then ks else ks ++ [f]).map (fun k => (k, step k)) := by
  unfold dictInsert
  by_cases h : f ∈ ks
  · have hany : (ks.map (fun k => (k, step k))).any (fun kv => kv.1 == f) = true := by
      rw [List.any_eq_true]
      exact ⟨(f, step f), List.mem_map_of_mem _ h, by simp⟩
    rw [if_pos hany, if_pos h, List.map_map]
    apply List.map_congr_left
    intro a _
    by_cases hf : a = f
    · subst hf; simp
    · simp [Function.comp, hf]
  · have hany : (ks.map (fun k => (k, step k))).any (fun kv => kv.1 == f) = false := by
      rw [List.any_eq_false]
      intro kv hkv
      rcases List.mem_map.mp hkv with ⟨a, ha, rfl⟩
      simp only [beq_iff_eq]
      intro hc
      exact h (hc ▸ ha)
    rw [if_neg (by simp [hany]), if_neg h, List.map_append]
    rfl

theorem dict_loop_mapform (step : String → PVal) (ks fs : List String) :
    dict_loop step (ks.map (fun k => (k, step k))) fs
      = (dict_keys_after ks fs).map (fun k => (k, step k)) := by
  induction fs generalizing ks with
  | nil => rfl
  | cons f fs ih =>
    show dict_loop step (dictInsert (ks.map (fun k => (k, step k))) f (step f)) fs = _
    rw [dictInsert_mapform]
    show _ = (dict_keys_after ks (f :: fs)).map (fun k => (k, step k))
    unfold dict_keys_after
    by_cases h : f ∈ ks
    · rw [if_pos h, if_pos h, ih ks]
    · rw [if_neg h, if_neg h, ih (ks ++ [f])]

theorem dict_loop_nil_mapform (step : String → PVal) (fs : List String) :
    dict_loop step [] fs = (dict_keys_after [] fs).map (fun k => (k, step k)) := by
  have := dict_loop_mapform step [] fs
  simpa using this

theorem dict_keys_after_split (ks fs : List String) :
    ∃ sel, dict_keys_after ks fs = ks ++ sel ∧ sel.Sublist fs := by
  induction fs generalizing ks with
  | nil => exact ⟨[], by simp [dict_keys_after]⟩
  | cons f fs ih =>
    unfold dict_keys_after
    by_cases h : f ∈ ks
    · rw [if_pos h]
      rcases ih ks with ⟨sel, hs, hsub⟩
      exact ⟨sel, hs, hsub.cons f⟩
    · rw [if_neg h]
      rcases ih (ks ++ [f]) with ⟨sel, hs, hsub⟩
      exact ⟨f :: sel, by rw [hs]; simp, hsub.cons₂ f⟩

theorem dict_keys_after_length_le (ks fs : List String) :
    (dict_keys_after ks fs).length ≤ ks.length + fs.length := by
  rcases dict_keys_after_split ks fs with ⟨sel, hs, hsub⟩
  rw [hs, List.length_append]
  exact Nat.add_le_add_left hsub.length_le _

theorem dict_keys_after_of_nodup (ks fs : List String)
    (h1 : ∀ f ∈ fs, f ∉ ks) (h2 : fs.Nodup) :
    dict_keys_after ks fs = ks ++ fs := by
  induction fs generalizing ks with
  | nil => simp [dict_keys_after]
  | cons f fs ih =>
    unfold dict_keys_after
    rw [if_neg (h1 f (List.mem_cons_self f fs))]
    rw [ih (ks ++ [f])]
    · simp
    · intro x hx
      simp only [List.mem_append, List.mem_singleton]
      rintro (hk | rfl)
      · exact h1 x (List.mem_cons_of_mem _ hx) hk
      · exact (List.nodup_cons.mp h2).1 hx
    · exact (List.nodup_cons.mp h2).2

theorem dict_keys_after_lt_of_mem (ks fs : List String) (f : String)
    (h1 : f ∈ ks) (h2 : f ∈ fs) :
    (dict_keys_after ks fs).length < ks.length + fs.length := by
  induction fs generalizing ks with
  | nil => cases h2
  | cons x xs ih =>
    unfold dict_keys_after
    by_cases hx : x ∈ ks
    · rw [if_pos hx]
      calc (dict_keys_after ks xs).length ≤ ks.length + xs.length :=
            dict_keys_after_length_le ks xs
        _ < ks.length + (x :: xs).length := by simp [Nat.lt_succ_self]
    · rw [if_neg hx]
      have hfx : f ≠ x := fun hfx => hx (hfx ▸ h1)
      have hfxs : f ∈ xs := by
        rcases List.mem_cons.mp h2 with h | h
        · exact absurd h hfx
        · exact h
      have := ih (ks ++ [x]) (List.mem_append_left _ h1) hfxs
      calc (dict_keys_after (ks ++ [x]) xs).length
          < (ks ++ [x]).length + xs.length := this
        _ = ks.length + (x :: xs).length := by simp [Nat.add_comm, Nat.add_assoc,
              Nat.add_left_comm]

theorem dict_keys_after_lt_of_not_nodup (ks fs : List String)
    (h : ¬ fs.Nodup) :
    (dict_keys_after ks fs).length < ks.length + fs.length := by
  induction fs generalizing ks with
  | nil => exact absurd List.nodup_nil h
  | cons x xs ih =>
    unfold dict_keys_after
    by_cases hx : x ∈ ks
    · rw [if_pos hx]
      calc (dict_keys_after ks xs).length ≤ ks.length + xs.length :=
            dict_keys_after_length_le ks xs
        _ < ks.length + (x :: xs).length := by simp [Nat.lt_succ_self]
    · rw [if_neg hx]
      by_cases hxs : xs.Nodup
      · have hmem : x ∈ xs := by
          by_contra hc
          exact h (List.nodup_cons.mpr ⟨hc, hxs⟩)
        have := dict_keys_after_lt_of_mem (ks ++ [x]) xs x
          (List.mem_append_right _ (List.mem_singleton_self x)) hmem
        calc (dict_keys_after (ks ++ [x]) xs).length
            < (ks ++ [x]).length + xs.length := this
          _ = ks.length + (x :: xs).length := by simp [Nat.add_comm, Nat.add_assoc,
                Nat.add_left_comm]
      · have := ih (ks ++ [x]) hxs
        calc (dict_keys_after (ks ++ [x]) xs).length
            < (ks ++ [x]).length + xs.length := this
          _ = ks.length + (x :: xs).length := by simp [Nat.add_comm, Nat.add_assoc,
                Nat.add_left_comm]

theorem find?_mapform (step : String → PVal) (ks : List String) (f : String)
    (h : f ∈ ks) :
    (ks.map (fun k => (k, step k))).find? (fun kv => kv.1 == f)
      = some (f, step f) := by
  induction ks with
  | nil => cases h
  | cons k ks ih =>
    by_cases hk : k = f
    · subst hk
      simp [List.find?]
    · have hf : f ∈ ks := by
        rcases List.mem_cons.mp h with h' | h'
        · exact absurd h'.symm hk
        · exact h'
      simp only [List.map_cons, List.find?]
      rw [show ((k, step k).1 == f) = false by simp [hk]]
      exact ih hf

theorem dict_loopE_ok_elim (step : String → Except PyErr PVal)
    (d : List (String × PVal)) (fs : List String) (X : List (String × PVal))
    (h : dict_loopE step d fs = .ok X) :
    (∀ f ∈ fs, ∃ v, step f = .ok v)
      ∧ X = dict_loop (fun f => okvalP (step f)) d fs := by
  induction fs generalizing d with
  | nil =>
    refine ⟨by simp, ?_⟩
    simpa [dict_loopE, dict_loop] using h.symm
  | cons f fs ih =>
    revert h
    show (match step f with
      | Except.error e => Except.error e
      | Except.ok pv => dict_loopE step (dictInsert d f pv) fs) = .ok X → _
    cases hstep : step f with
    | error e => intro h; cases h
    | ok v =>
      intro h
      rcases ih (dictInsert d f v) h with ⟨hall, hX⟩
      refine ⟨?_, ?_⟩
      · intro x hx
        rcases List.mem_cons.mp hx with rfl | hx'
        · exact ⟨v, hstep⟩
        · exact hall x hx'
      · rw [hX]
        show dict_loop _ (dictInsert d f v) fs
          = dict_loop _ (dictInsert d f (okvalP (step f))) fs
        rw [hstep]
        rfl

theorem dict_loopE_ok_intro (step : String → Except PyErr PVal)
    (d : List (String × PVal)) (fs : List String)
    (h : ∀ f ∈ fs, ∃ v, step f = .ok v) :
    dict_loopE step d fs = .ok (dict_loop (fun f => okvalP (step f)) d fs) := by
  induction fs generalizing d with
  | nil => rfl
  | cons f fs ih =>
    rcases h f (List.mem_cons_self f fs) with ⟨v, hv⟩
    show (match step f with
      | Except.error e => Except.error e
      | Except.ok pv => dict_loopE step (dictInsert d f pv) fs) = _
    rw [hv]
    show dict_loopE step (dictInsert d f v) fs = _
    rw [ih (dictInsert d f v) (fun x hx => h x (List.mem_cons_of_mem _ hx))]
    show _ = Except.ok (dict_loop _ (dictInsert d f (okvalP (step f))) fs)
    rw [hv]
    rfl

theorem insert_sorted_perm (le : α → α → Bool) (x : α) (l : List α) :
    (insert_sorted le x l).Perm (x :: l) := by
  induction l with
  | nil => exact List.Perm.refl _
  | cons y ys ih =>
    unfold insert_sorted
    by_cases h : le x y
    · rw [if_pos h]
    · rw [if_neg h]
      exact (ih.cons y).trans (List.Perm.swap x y ys)

theorem sort_by_key_perm (le : α → α → Bool) (l : List α) :
    (sort_by_key le l).Perm l := by
  induction l with
  | nil => exact List.Perm.refl _
  | cons x xs ih =>
    exact (insert_sorted_perm le x (sort_by_key le xs)).trans (ih.cons x)

theorem nanMin_none_right (a : PVal) : nanMin a none = none := by
  cases a <;> rfl

theorem mem_enumFrom_of_getElem? {α : Type _} :
    ∀ (l : List α) (n j : Nat) (a : α), l[j]? = some a → (n + j, a) ∈ l.enumFrom n := by
  intro l
  induction l with
  | nil => intro n j a h; simp at h
  | cons x xs ih =>
    intro n j a h
    cases j with
    | zero =>
      have : x = a := by simpa using h
      subst this
      simp [List.enumFrom]
    | succ j =>
      have hx : (n + 1 + j, a) ∈ xs.enumFrom (n + 1) :=
        ih (n + 1) j a (by simpa using h)
      have hidx : n + (j + 1) = n + 1 + j := by omega
      show (n + (j + 1), a) ∈ (n, x) :: xs.enumFrom (n + 1)
      rw [hidx]
      exact List.mem_cons_of_mem _ hx

theorem mem_enum_of_getElem? {α : Type _} (l : List α) (j : Nat) (a : α)
    (h : l[j]? = some a) : (j, a) ∈ l.enum := by
  have := mem_enumFrom_of_getElem? l 0 j a h
  simpa [List.enum] using this

theorem rank_scale_none_mem (n : Nat) :
    ∀ (r : Nat) (l : List (Nat × PVal)) (i : Nat),
      (i, (none : Option ℚ)) ∈ l → (i, (none : Option ℚ)) ∈ rank_scale n r l := by
  intro r l
  induction l generalizing r with
  | nil => intro i h; cases h
  | cons kp rest ih =>
    intro i h
    obtain ⟨k, p⟩ := kp
    show (i, none) ∈ (k, p.map _) :: rank_scale n (r + 1) rest
    rcases List.mem_cons.mp h with heq | hmem
    · rw [Prod.mk.injEq] at heq
      obtain ⟨rfl, rfl⟩ := heq
      exact List.mem_cons_self _ _
    · exact List.mem_cons_of_mem _ (ih (r + 1) i hmem)

theorem cum_nan_min_none_mem :
    ∀ (acc : PVal) (l : List (Nat × PVal)) (i : Nat),
      (i, (none : Option ℚ)) ∈ l → (i, (none : Option ℚ)) ∈ cum_nan_min acc l := by
  intro acc l
  induction l generalizing acc with
  | nil => intro i h; cases h
  | cons kp rest ih =>
    intro i h
    obtain ⟨k, p⟩ := kp
    show (i, none) ∈ (k, nanMin acc p) :: cum_nan_min (nanMin acc p) rest
    rcases List.mem_cons.mp h with heq | hmem
    · rw [Prod.mk.injEq] at heq
      obtain ⟨rfl, rfl⟩ := heq
      rw [nanMin_none_right]
      exact List.mem_cons_self _ _
    · exact List.mem_cons_of_mem _ (ih (nanMin acc p) i hmem)

theorem cum_nan_min_from_none_mem (l : List (Nat × PVal)) (i : Nat)
    (h : (i, (none : Option ℚ)) ∈ l) :
    (i, (none : Option ℚ)) ∈ cum_nan_min_from l := by
  match l with
  | [] => cases h
  | (k, p) :: rest =>
    show (i, none) ∈ (k, p) :: cum_nan_min p rest
    rcases List.mem_cons.mp h with heq | hmem
    · exact heq ▸ List.mem_cons_self _ _
    · exact List.mem_cons_of_mem _ (cum_nan_min_none_mem p rest i hmem)

theorem rank_scale_fst (n : Nat) :
    ∀ (r : Nat) (l : List (Nat × PVal)),
      (rank_scale n r l).map Prod.fst = l.map Prod.fst := by
  intro r l
  induction l generalizing r with
  | nil => rfl
  | cons kp rest ih =>
    obtain ⟨k, p⟩ := kp
    show k :: (rank_scale n (r + 1) rest).map Prod.fst = k :: rest.map Prod.fst
    rw [ih]

theorem cum_nan_min_fst :
    ∀ (acc : PVal) (l : List (Nat × PVal)),
      (cum_nan_min acc l).map Prod.fst = l.map Prod.fst := by
  intro acc l
  induction l generalizing acc with
  | nil => rfl
  | cons kp rest ih =>
    obtain ⟨k, p⟩ := kp
    show k :: (cum_nan_min (nanMin acc p) rest).map Prod.fst = k :: rest.map Prod.fst
    rw [ih]

theorem cum_nan_min_from_fst (l : List (Nat × PVal)) :
    (cum_nan_min_from l).map Prod.fst = l.map Prod.fst := by
  match l with
  | [] => rfl
  | (k, p) :: rest =>
    show k :: (cum_nan_min p rest).map Prod.fst = k :: rest.map Prod.fst
    rw [cum_nan_min_fst]

theorem find?_fst_of_nodup {β : Type _} :
    ∀ (l : List (Nat × β)) (i : Nat) (v : β),
      (l.map Prod.fst).Nodup → (i, v) ∈ l →
      l.find? (fun ip => ip.1 == i) = some (i, v) := by
  intro l
  induction l with
  | nil => intro i v _ h; cases h
  | cons kp rest ih =>
    intro i v hnd hm
    obtain ⟨k, w⟩ := kp
    have hnd' := List.nodup_cons.mp hnd
    by_cases hk : k = i
    · subst hk
      have hvw : v = w := by
        rcases List.mem_cons.mp hm with heq | hmem
        · rw [Prod.mk.injEq] at heq
          exact heq.2
        · exact absurd (List.mem_map_of_mem Prod.fst hmem) hnd'.1
      subst hvw
      exact List.find?_cons_of_pos _ (by simp)
    · have hmem : (i, v) ∈ rest := by
        rcases List.mem_cons.mp hm with heq | hmem
        · rw [Prod.mk.injEq] at heq
          exact absurd heq.1.symm hk
        · exact hmem
      rw [List.find?_cons_of_neg _ (by simp [hk])]
      exact ih i v hnd'.2 hmem

theorem fdr_bh_length (p_values : List PVal) :
    (fdr_bh p_values).length = p_values.length := by
  unfold fdr_bh
  simp

theorem fdr_bh_fst_nodup (p_values : List PVal) :
    ((((cum_nan_min_from
        (rank_scale p_values.length 1
          (sort_by_key pvalLe p_values.enum)).reverse).reverse).map
      (fun ip => (ip.1, ip.2.map (fun v => min v 1)))).map Prod.fst).Nodup := by
  rw [List.map_map]
  have h1 : (Prod.fst ∘ fun ip : Nat × PVal => (ip.1, ip.2.map (fun v => min v 1)))
      = Prod.fst := rfl
  rw [h1, List.map_reverse, cum_nan_min_from_fst, List.map_reverse,
    rank_scale_fst, List.reverse_reverse]
  have hperm : ((sort_by_key pvalLe p_values.enum).map Prod.fst).Perm
      (p_values.enum.map Prod.fst) :=
    (sort_by_key_perm pvalLe p_values.enum).map Prod.fst
  refine hperm.symm.nodup ?_
  rw [List.enum_map_fst]
  exact List.nodup_range _

theorem fdr_bh_none_at (p_values : List PVal) (j : Nat)
    (h : p_values[j]? = some none) : (fdr_bh p_values)[j]? = some none := by
  have hj : j < p_values.length := by
    rcases List.getElem?_eq_some.mp h with ⟨hlt, _⟩
    exact hlt
  have hmem_enum : (j, (none : Option ℚ)) ∈ p_values.enum :=
    mem_enum_of_getElem? p_values j none h
  have hmem_sorted : (j, (none : Option ℚ)) ∈ sort_by_key pvalLe p_values.enum :=
    (sort_by_key_perm pvalLe p_values.enum).mem_iff.mpr hmem_enum
  have hmem_raw : (j, (none : Option ℚ)) ∈
      rank_scale p_values.length 1 (sort_by_key pvalLe p_values.enum) :=
    rank_scale_none_mem _ _ _ _ hmem_sorted
  have hmem_cum : (j, (none : Option ℚ)) ∈
      cum_nan_min_from
        (rank_scale p_values.length 1 (sort_by_key pvalLe p_values.enum)).reverse :=
    cum_nan_min_from_none_mem _ _ (List.mem_reverse.mpr hmem_raw)
  have hmem_clip : (j, (none : Option ℚ)) ∈
      ((cum_nan_min_from
        (rank_scale p_values.length 1
          (sort_by_key pvalLe p_values.enum)).reverse).reverse).map
      (fun ip => (ip.1, ip.2.map (fun v => min v 1))) :=
    List.mem_map.mpr ⟨(j, none), List.mem_reverse.mpr hmem_cum, rfl⟩
  have hfind := find?_fst_of_nodup _ j none (fdr_bh_fst_nodup p_values) hmem_clip
  rw [List.map_reverse] at hfind
  unfold fdr_bh
  simp only []
  rw [List.getElem?_map, List.getElem?_range hj]
  simp [hfind]

theorem bonferroni_length (p_values : List PVal) :
    (bonferroni p_values).length = p_values.length := by
  unfold bonferroni
  simp

theorem bonferroni_none_at (p_values : List PVal) (j : Nat)
    (h : p_values[j]? = some none) : (bonferroni p_values)[j]? = some none := by
  unfold bonferroni
  rw [List.getElem?_map, h]
  rfl

theorem p_val_correction_spec (p_values : List PVal) (method : String)
    (h : method ∈ correction_methods) :
    ∃ corrected, p_val_correction p_values method = .ok corrected
      ∧ corrected.length = p_values.length
      ∧ ∀ j : Nat, p_values[j]? = some none → corrected[j]? = some none := by
  rcases List.mem_cons.mp h with rfl | h'
  · exact ⟨fdr_bh p_values, rfl, fdr_bh_length p_values,
      fun j hj => fdr_bh_none_at p_values j hj⟩
  · rcases List.mem_cons.mp h' with rfl | h''
    · exact ⟨bonferroni p_values, rfl, bonferroni_length p_values,
        fun j hj => bonferroni_none_at p_values j hj⟩
    · cases h''

theorem p_val_correction_ok_length (p_values : List PVal) (method : String)
    (corrected : List PVal)
    (h : p_val_correction p_values method = .ok corrected) :
    corrected.length = p_values.length := by
  unfold p_val_correction at h
  by_cases h1 : method == "fdr_bh"
  · rw [if_pos h1] at h
    cases h
    exact fdr_bh_length p_values
  · rw [if_neg h1] at h
    by_cases h2 : method == "bonferroni"
    · rw [if_pos h2] at h
      cases h
      exact bonferroni_length p_values
    · rw [if_neg h2] at h
      cases h

theorem length_filter_add_length_filter_not (l : List α) (p : α → Bool) :
    (l.filter p).length + (l.filter (fun x => !p x)).length = l.length := by
  induction l with
  | nil => rfl
  | cons x xs ih =>
    cases h : p x with
    | true =>
      simp [List.filter_cons, h]
      omega
    | false =>
      simp [List.filter_cons, h]
      omega

theorem mk_pval_rows_fst : ∀ (fs : List String) (ps cs : List PVal),
    ps.length = fs.length → cs.length = fs.length →
    (mk_pval_rows fs ps cs).map (fun r => r.1) = fs := by
  intro fs
  induction fs with
  | nil =>
    intro ps cs _ _
    match ps, cs with
    | [], [] => rfl
    | [], _ :: _ => rfl
    | _ :: _, [] => rfl
    | _ :: _, _ :: _ => rfl
  | cons f fs ih =>
    intro ps cs hp hc
    match ps, cs with
    | [], _ => simp at hp
    | _ :: _, [] => simp at hc
    | p :: ps, c :: cs =>
      show f :: (mk_pval_rows fs ps cs).map (fun r => r.1) = f :: fs
      rw [ih ps cs (by simpa using hp) (by simpa using hc)]

theorem mk_pval_rows_mem : ∀ (fs : List String) (ps cs : List PVal) (j : Nat)
    (f : String) (p c : PVal),
    fs[j]? = some f → ps[j]? = some p → cs[j]? = some c →
    (f, p, c) ∈ mk_pval_rows fs ps cs := by
  intro fs
  induction fs with
  | nil => intro ps cs j f p c hf _ _; simp at hf
  | cons f0 fs ih =>
    intro ps cs j f p c hf hp hc
    match ps, cs with
    | [], _ => simp at hp
    | _ :: _, [] => simp at hc
    | p0 :: ps, c0 :: cs =>
      cases j with
      | zero =>
        have hf0 : f0 = f := by simpa using hf
        have hp0 : p0 = p := by simpa using hp
        have hc0 : c0 = c := by simpa using hc
        subst hf0; subst hp0; subst hc0
        exact List.mem_cons_self _ _
      | succ j =>
        exact List.mem_cons_of_mem _
          (ih ps cs j f p c (by simpa using hf) (by simpa using hp) (by simpa using hc))

theorem split_add_significance_label (base : List (String × PVal × PVal)) (t : ℚ) :
    split_morphology_features (add_significance_label base t)
      = ((base.filter (fun r => significance_flag r.2.2 t)).map (fun r => r.1),
        (base.filter (fun r => !significance_flag r.2.2 t)).map (fun r => r.1)) := by
  unfold split_morphology_features add_significance_label
  rw [List.filter_map, List.filter_map, List.map_map, List.map_map]
  rfl

theorem partition_spec (base : List (String × PVal × PVal)) (fs : List String)
    (p : (String × PVal × PVal) → Bool)
    (hfst : base.map (fun r => r.1) = fs) (hnd : fs.Nodup) :
    ((base.filter p).map (fun r => r.1)).length
        + ((base.filter (fun r => !p r)).map (fun r => r.1)).length = fs.length
    ∧ (∀ f, f ∈ fs ↔ (f ∈ (base.filter p).map (fun r => r.1)
        ∨ f ∈ (base.filter (fun r => !p r)).map (fun r => r.1)))
    ∧ (∀ f, f ∈ (base.filter p).map (fun r => r.1)
        → f ∉ (base.filter (fun r => !p r)).map (fun r => r.1))
    ∧ ((base.filter p).map (fun r => r.1)).Sublist fs
    ∧ ((base.filter (fun r => !p r)).map (fun r => r.1)).Sublist fs := by
  have hsub1 : ((base.filter p).map (fun r => r.1)).Sublist fs := by
    rw [← hfst]
    exact (List.filter_sublist base).map _
  have hsub2 : ((base.filter (fun r => !p r)).map (fun r => r.1)).Sublist fs := by
    rw [← hfst]
    exact (List.filter_sublist base).map _
  refine ⟨?_, ?_, ?_, hsub1, hsub2⟩
  · rw [List.length_map, List.length_map, ← hfst, List.length_map]
    exact length_filter_add_length_filter_not base p
  · intro f
    constructor
    · intro hf
      rw [← hfst] at hf
      rcases List.mem_map.mp hf with ⟨r, hr, rfl⟩
      by_cases hp : p r
      · exact Or.inl (List.mem_map_of_mem _ (List.mem_filter.mpr ⟨hr, hp⟩))
      · exact Or.inr (List.mem_map_of_mem _
          (List.mem_filter.mpr ⟨hr, by simpa using hp⟩))
    · rintro (hf | hf)
      · exact hsub1.subset hf
      · exact hsub2.subset hf
  · intro f h1 h2
    rcases List.mem_map.mp h1 with ⟨r1, hr1, hfr1⟩
    rcases List.mem_map.mp h2 with ⟨r2, hr2, hfr2⟩
    have hr1b := (List.mem_filter.mp hr1).1
    have hr2b := (List.mem_filter.mp hr2).1
    have hinj := List.inj_on_of_nodup_map (hfst ▸ hnd : (base.map (fun r => r.1)).Nodup)
    have : r1 = r2 := hinj hr1b hr2b (by rw [hfr1, hfr2])
    have hp1 := (List.mem_filter.mp hr1).2
    have hp2 := (List.mem_filter.mp hr2).2
    rw [this] at hp1
    rw [hp1] at hp2
    simp at hp2

theorem dict_loop_nil_nodup (step : String → PVal) (fs : List String)
    (hnd : fs.Nodup) :
    dict_loop step [] fs = fs.map (fun k => (k, step k)) := by
  rw [dict_loop_nil_mapform]
  have := dict_keys_after_of_nodup [] fs (by simp) hnd
  rw [show dict_keys_after [] fs = fs by simpa using this]

theorem map_snd_mapform (step : String → PVal) (fs : List String) :
    (fs.map (fun k => (k, step k))).map (fun kv => kv.2) = fs.map step := by
  rw [List.map_map]
  rfl

theorem ks_core_ok (ks2samp : TestFn) (g : GlobalRng)
    (ref_profiles exp_profiles : Profile) (fs : List String) (cm : String)
    (hnd : fs.Nodup) (hcm : cm ∈ correction_methods) :
    ∃ cs, ks_core ks2samp g ref_profiles exp_profiles fs cm
        = .ok (mk_pval_rows fs
            (fs.map (ks_step ks2samp g ref_profiles exp_profiles)) cs)
      ∧ cs.length = fs.length
      ∧ ∀ j : Nat,
          (fs.map (ks_step ks2samp g ref_profiles exp_profiles))[j]? = some none
          → cs[j]? = some none := by
  have hloop := dict_loop_nil_nodup (ks_step ks2samp g ref_profiles exp_profiles) fs hnd
  rcases p_val_correction_spec (fs.map (ks_step ks2samp g ref_profiles exp_profiles))
      cm hcm with ⟨cs, hok, hlen, hnone⟩
  refine ⟨cs, ?_, by simpa using hlen, hnone⟩
  simp only [ks_core]
  rw [hloop, if_pos (by simp), map_snd_mapform]
  simp only [assemble_core]
  rw [hok]

theorem perm_step_eq (ptest : PermTestFn) (g : GlobalRng)
    (ref_profiles exp_profiles : Profile) (n_resamples seed : Nat) (f : String)
    (rv ev : List ℚ)
    (hrv : ref_profiles.get f = some rv) (hev : exp_profiles.get f = some ev) :
    perm_step ptest g ref_profiles exp_profiles n_resamples seed f
      = .ok (except_to_pval (ptest g n_resamples seed rv ev)) := by
  unfold perm_step
  rw [hrv, hev]
  cases hp : ptest g n_resamples seed rv ev <;> simp [hp, except_to_pval]

theorem ks_step_eq (ks2samp : TestFn) (g : GlobalRng)
    (ref_profiles exp_profiles : Profile) (f : String) (rv ev : List ℚ)
    (hrv : ref_profiles.get f = some rv) (hev : exp_profiles.get f = some ev) :
    ks_step ks2samp g ref_profiles exp_profiles f
      = except_to_pval (ks2samp g rv ev) := by
  unfold ks_step
  rw [hrv, hev]
  cases hp : ks2samp g rv ev <;> simp [hp, except_to_pval]

theorem welch_step_eq_of_value_error (ttest : TestFn) (g : GlobalRng)
    (ref_profiles exp_profiles : Profile) (f : String) (rv ev : List ℚ) (msg : String)
    (hrv : ref_profiles.get f = some rv) (hev : exp_profiles.get f = some ev)
    (hfail : ttest g rv ev = .error (.valueError msg)) :
    welch_step ttest g ref_profiles exp_profiles f = .ok none := by
  unfold welch_step
  rw [hrv, hev]
  simp [hfail]

theorem welch_step_eq_of_ok (ttest : TestFn) (g : GlobalRng)
    (ref_profiles exp_profiles : Profile) (f : String) (rv ev : List ℚ) (v : ℚ)
    (hrv : ref_profiles.get f = some rv) (hev : exp_profiles.get f = some ev)
    (hok : ttest g rv ev = .ok v) :
    welch_step ttest g ref_profiles exp_profiles f = .ok (some v) := by
  unfold welch_step
  rw [hrv, hev]
  simp [hok]

theorem map_fst_mapform (step : String → PVal) (fs : List String) :
    (fs.map (fun k => (k, step k))).map (fun kv => kv.1) = fs := by
  rw [List.map_map]
  exact List.map_id'' (fun x => rfl) fs

theorem perm_core_ok (ptest : PermTestFn) (g : GlobalRng)
    (ref_profiles exp_profiles : Profile) (fs : List String)
    (n_resamples : Nat) (cm : String) (seed : Nat)
    (hnd : fs.Nodup) (hcm : cm ∈ correction_methods)
    (hcols : ∀ x ∈ fs, (ref_profiles.get x).isSome ∧ (exp_profiles.get x).isSome) :
    ∃ cs, permutation_core ptest g ref_profiles exp_profiles fs n_resamples cm seed
        = .ok (mk_pval_rows fs
            (fs.map (fun f =>
              okvalP (perm_step ptest g ref_profiles exp_profiles n_resamples seed f)))
            cs)
      ∧ cs.length = fs.length
      ∧ ∀ j : Nat,
          (fs.map (fun f =>
            okvalP (perm_step ptest g ref_profiles exp_profiles n_resamples seed f)))[j]?
            = some none
          → cs[j]? = some none := by
  have hsteps : ∀ f ∈ fs,
      ∃ v, perm_step ptest g ref_profiles exp_profiles n_resamples seed f = .ok v := by
    intro f hf
    rcases hcols f hf with ⟨h1, h2⟩
    rcases Option.isSome_iff_exists.mp h1 with ⟨rv, hrv⟩
    rcases Option.isSome_iff_exists.mp h2 with ⟨ev, hev⟩
    exact ⟨_, perm_step_eq ptest g ref_profiles exp_profiles n_resamples seed f
      rv ev hrv hev⟩
  have hloopE := dict_loopE_ok_intro
    (perm_step ptest g ref_profiles exp_profiles n_resamples seed) [] fs hsteps
  have hloop := dict_loop_nil_nodup
    (fun f => okvalP (perm_step ptest g ref_profiles exp_profiles n_resamples seed f))
    fs hnd
  rcases p_val_correction_spec
      (fs.map (fun f =>
        okvalP (perm_step ptest g ref_profiles exp_profiles n_resamples seed f)))
      cm hcm with ⟨cs, hok, hlen, hnone⟩
  refine ⟨cs, ?_, by simpa using hlen, hnone⟩
  simp only [permutation_core]
  rw [hloopE, hloop]
  show assemble_core
      ((fs.map (fun k => (k,
        okvalP (perm_step ptest g ref_profiles exp_profiles n_resamples seed k)))).map
          (fun kv => kv.1))
      ((fs.map (fun k => (k,
        okvalP (perm_step ptest g ref_profiles exp_profiles n_resamples seed k)))).map
          (fun kv => kv.2))
      cm = _
  rw [map_fst_mapform, map_snd_mapform]
  simp only [assemble_core]
  rw [hok]

theorem welch_core_ok (ttest : TestFn) (g : GlobalRng)
    (ref_profiles exp_profiles : Profile) (fs : List String) (cm : String)
    (hnd : fs.Nodup) (hcm : cm ∈ correction_methods)
    (hsteps : ∀ x ∈ fs, ∃ v, welch_step ttest g ref_profiles exp_profiles x = .ok v) :
    ∃ cs, welch_core ttest g ref_profiles exp_profiles fs cm
        = .ok (mk_pval_rows fs
            (fs.map (fun f => okvalP (welch_step ttest g ref_profiles exp_profiles f)))
            cs)
      ∧ cs.length = fs.length
      ∧ ∀ j : Nat,
          (fs.map (fun f =>
            okvalP (welch_step ttest g ref_profiles exp_profiles f)))[j]? = some none
          → cs[j]? = some none := by
  have hloopE := dict_loopE_ok_intro
    (welch_step ttest g ref_profiles exp_profiles) [] fs hsteps
  have hloop := dict_loop_nil_nodup
    (fun f => okvalP (welch_step ttest g ref_profiles exp_profiles f)) fs hnd
  rcases p_val_correction_spec
      (fs.map (fun f => okvalP (welch_step ttest g ref_profiles exp_profiles f)))
      cm hcm with ⟨cs, hok, hlen, hnone⟩
  refine ⟨cs, ?_, by simpa using hlen, hnone⟩
  simp only [welch_core]
  rw [hloopE, hloop]
  show assemble_core fs
      (fs.map (fun f =>
        ((fs.map (fun k => (k,
          okvalP (welch_step ttest g ref_profiles exp_profiles k)))).find?
            (fun kv => kv.1 == f)).bind (fun kv => kv.2)))
      cm = _
  have hvals : fs.map (fun f =>
      ((fs.map (fun k => (k,
        okvalP (welch_step ttest g ref_profiles exp_profiles k)))).find?
          (fun kv => kv.1 == f)).bind (fun kv => kv.2))
      = fs.map (fun f => okvalP (welch_step ttest g ref_profiles exp_profiles f)) := by
    apply List.map_congr_left
    intro a ha
    rw [find?_mapform (fun k =>
      okvalP (welch_step ttest g ref_profiles exp_profiles k)) fs a ha]
    rfl
  rw [hvals]
  simp only [assemble_core]
  rw [hok]

theorem ks_core_features (ks2samp : TestFn) (g : GlobalRng)
    (ref_profiles exp_profiles : Profile) (fs : List String) (cm : String)
    (base : List (String × PVal × PVal))
    (h : ks_core ks2samp g ref_profiles exp_profiles fs cm = .ok base) :
    base.map (fun r => r.1) = fs := by
  simp only [ks_core] at h
  by_cases hc : fs.length
      = (dict_loop (ks_step ks2samp g ref_profiles exp_profiles) [] fs).length
  · rw [if_pos hc] at h
    revert h
    unfold assemble_core
    cases hcorr : p_val_correction
        ((dict_loop (ks_step ks2samp g ref_profiles exp_profiles) [] fs).map
          (fun kv => kv.2)) cm with
    | error e => intro h; cases h
    | ok cs =>
      intro h
      cases h
      apply mk_pval_rows_fst
      · rw [List.length_map]
        exact hc.symm
      · rw [p_val_correction_ok_length _ _ _ hcorr, List.length_map]
        exact hc.symm
  · rw [if_neg hc] at h
    cases h

theorem permutation_core_features (ptest : PermTestFn) (g : GlobalRng)
    (ref_profiles exp_profiles : Profile) (fs : List String)
    (n_resamples : Nat) (cm : String) (seed : Nat)
    (base : List (String × PVal × PVal)) (hnd : fs.Nodup)
    (h : permutation_core ptest g ref_profiles exp_profiles fs n_resamples cm seed
      = .ok base) :
    base.map (fun r => r.1) = fs := by
  simp only [permutation_core] at h
  revert h
  cases hloop : dict_loopE
      (perm_step ptest g ref_profiles exp_profiles n_resamples seed) [] fs with
  | error e => intro h; cases h
  | ok X =>
    intro h
    obtain ⟨_, hX⟩ := dict_loopE_ok_elim _ _ _ _ hloop
    rw [dict_loop_nil_nodup _ fs hnd] at hX
    subst hX
    replace h : assemble_core
        ((fs.map (fun k => (k,
          okvalP (perm_step ptest g ref_profiles exp_profiles n_resamples seed k)))).map
            (fun kv => kv.1))
        ((fs.map (fun k => (k,
          okvalP (perm_step ptest g ref_profiles exp_profiles n_resamples seed k)))).map
            (fun kv => kv.2))
        cm = .ok base := h
    rw [map_fst_mapform, map_snd_mapform] at h
    revert h
    unfold assemble_core
    cases hcorr : p_val_correction
        (fs.map (fun f =>
          okvalP (perm_step ptest g ref_profiles exp_profiles n_resamples seed f)))
        cm with
    | error e => intro h; cases h
    | ok cs =>
      intro h
      cases h
      apply mk_pval_rows_fst
      · rw [List.length_map]
      · rw [p_val_correction_ok_length _ _ _ hcorr, List.length_map]

theorem welch_core_features (ttest : TestFn) (g : GlobalRng)
    (ref_profiles exp_profiles : Profile) (fs : List String) (cm : String)
    (base : List (String × PVal × PVal))
    (h : welch_core ttest g ref_profiles exp_profiles fs cm = .ok base) :
    base.map (fun r => r.1) = fs := by
  simp only [welch_core] at h
  revert h
  cases hloop : dict_loopE (welch_step ttest g ref_profiles exp_profiles) [] fs with
  | error e => intro h; cases h
  | ok X =>
    intro h
    replace h : assemble_core fs
        (fs.map (fun f => (X.find? (fun kv => kv.1 == f)).bind (fun kv => kv.2)))
        cm = .ok base := h
    revert h
    unfold assemble_core
    cases hcorr : p_val_correction
        (fs.map (fun f => (X.find? (fun kv => kv.1 == f)).bind (fun kv => kv.2)))
        cm with
    | error e => intro h; cases h
    | ok cs =>
      intro h
      cases h
      apply mk_pval_rows_fst
      · rw [List.length_map]
      · rw [p_val_correction_ok_length _ _ _ hcorr, List.length_map]

theorem run_stat_core_ks (ks2samp ttest : TestFn) (ptest : PermTestFn)
    (g : GlobalRng) (ref_profiles exp_profiles : Profile) (fs : List String)
    (fdr_method : String) (nres seed : Nat) :
    run_stat_core ks2samp ttest ptest g ref_profiles exp_profiles fs
        "ks_test" fdr_method nres seed
      = ks_core ks2samp g ref_profiles exp_profiles fs fdr_method := by
  simp [run_stat_core]

theorem run_stat_core_perm (ks2samp ttest : TestFn) (ptest : PermTestFn)
    (g : GlobalRng) (ref_profiles exp_profiles : Profile) (fs : List String)
    (fdr_method : String) (nres seed : Nat) :
    run_stat_core ks2samp ttest ptest g ref_profiles exp_profiles fs
        "permutation_test" fdr_method nres seed
      = permutation_core ptest g ref_profiles exp_profiles fs nres fdr_method seed := by
  simp [run_stat_core]

theorem run_stat_core_welch (ks2samp ttest : TestFn) (ptest : PermTestFn)
    (g : GlobalRng) (ref_profiles exp_profiles : Profile) (fs : List String)
    (fdr_method : String) (nres seed : Nat) :
    run_stat_core ks2samp ttest ptest g ref_profiles exp_profiles fs
        "welchs_ttest" fdr_method nres seed
      = welch_core ttest g ref_profiles exp_profiles fs fdr_method := by
  simp [run_stat_core]

theorem run_stat_core_features (ks2samp ttest : TestFn) (ptest : PermTestFn)
    (g : GlobalRng) (ref_profiles exp_profiles : Profile) (fs : List String)
    (method fdr_method : String) (nres seed : Nat)
    (base : List (String × PVal × PVal))
    (hm : method ∈ supported_methods) (hnd : fs.Nodup)
    (h : run_stat_core ks2samp ttest ptest g ref_profiles exp_profiles fs
      method fdr_method nres seed = .ok base) :
    base.map (fun r => r.1) = fs := by
  rcases List.mem_cons.mp hm with rfl | hm'
  · rw [run_stat_core_ks] at h
    exact ks_core_features _ _ _ _ _ _ _ h
  · rcases List.mem_cons.mp hm' with rfl | hm''
    · rw [run_stat_core_perm] at h
      exact permutation_core_features _ _ _ _ _ _ _ _ _ hnd h
    · rcases List.mem_cons.mp hm'' with rfl | hm3
      · rw [run_stat_core_welch] at h
        exact welch_core_features _ _ _ _ _ _ _ h
      · cases hm3

theorem run_stat_test_eq_core (ks2samp ttest : TestFn) (ptest : PermTestFn)
    (g : GlobalRng) (ref_profiles exp_profiles : Profile) (fs : List String)
    (method fdr_method : String) (t : ℚ) (nres seed : Nat) :
    run_stat_test ks2samp ttest ptest g ref_profiles exp_profiles fs
        method fdr_method t nres seed
      = (run_stat_core ks2samp ttest ptest g ref_profiles exp_profiles fs
          method fdr_method nres seed).map
          (fun rs => add_significance_label rs t) := by
  by_cases h1 : method = "ks_test"
  · subst h1
    simp [run_stat_test, run_stat_core, ks_test]
  · by_cases h2 : method = "permutation_test"
    · subst h2
      simp [run_stat_test, run_stat_core, permutation]
    · simp [run_stat_test, run_stat_core, welchs_ttest, h1, h2]

theorem get_signatures_fst_ok_elim (ks2samp ttest : TestFn) (ptest : PermTestFn)
    (g : GlobalRng) (ref_profiles exp_profiles : Profile) (fs : List String)
    (method fdr_method : String) (t : ℚ) (nres seed : Nat)
    (on_feats off_feats : List String)
    (h : (get_signatures ks2samp ttest ptest g ref_profiles exp_profiles fs
      method fdr_method t nres seed).1 = .ok (on_feats, off_feats)) :
    method ∈ supported_methods
      ∧ ∃ base, run_stat_core ks2samp ttest ptest (np_random_seed seed g)
          ref_profiles exp_profiles fs method fdr_method nres seed = .ok base
        ∧ on_feats = (base.filter (fun r => significance_flag r.2.2 t)).map
            (fun r => r.1)
        ∧ off_feats = (base.filter (fun r => !significance_flag r.2.2 t)).map
            (fun r => r.1) := by
  by_cases hm : method ∈ supported_methods
  · refine ⟨hm, ?_⟩
    simp only [get_signatures, if_pos hm] at h
    rw [run_stat_test_eq_core] at h
    cases hcore : run_stat_core ks2samp ttest ptest (np_random_seed seed g)
        ref_profiles exp_profiles fs method fdr_method nres seed with
    | error e =>
      rw [hcore] at h
      have h' : (Except.error e : Except PyErr (List String × List String))
          = .ok (on_feats, off_feats) := h
      cases h'
    | ok base =>
      rw [hcore] at h
      have h' : Except.ok (split_morphology_features (add_significance_label base t))
          = Except.ok (on_feats, off_feats) := h
      injection h' with h'
      rw [split_add_significance_label, Prod.mk.injEq] at h'
      exact ⟨base, rfl, h'.1.symm, h'.2.symm⟩
  · exfalso
    simp only [get_signatures, if_neg hm] at h
    have h' : (Except.error (PyErr.valueError (method ++ " is not a valid method"))
        : Except PyErr (List String × List String)) = .ok (on_feats, off_feats) := h
    cases h'

instance {ε α : Type _} [DecidableEq ε] [DecidableEq α] :
    DecidableEq (Except ε α) := fun a b =>
  match a, b with
  | .ok x, .ok y =>
    if h : x = y then .isTrue (by rw [h])
    else .isFalse (by intro hc; cases hc; exact h rfl)
  | .error x, .error y =>
    if h : x = y then .isTrue (by rw [h])
    else .isFalse (by intro hc; cases hc; exact h rfl)
  | .ok _, .error _ => .isFalse (by intro hc; cases hc)
  | .error _, .ok _ => .isFalse (by intro hc; cases hc)

theorem get_signatures_fst_ok_intro (ks2samp ttest : TestFn) (ptest : PermTestFn)
    (g : GlobalRng) (ref_profiles exp_profiles : Profile) (fs : List String)
    (method fdr_method : String) (t : ℚ) (nres seed : Nat)
    (base : List (String × PVal × PVal))
    (hm : method ∈ supported_methods)
    (hcore : run_stat_core ks2samp ttest ptest (np_random_seed seed g)
      ref_profiles exp_profiles fs method fdr_method nres seed = .ok base) :
    (get_signatures ks2samp ttest ptest g ref_profiles exp_profiles fs
        method fdr_method t nres seed).1
      = .ok (split_morphology_features (add_significance_label base t)) := by
  simp only [get_signatures, if_pos hm]
  rw [run_stat_test_eq_core, hcore]
  rfl

/-- C1: for every valid call of get_signatures that returns a pair of
feature lists, those lists partition the requested features: their lengths
sum to the number of requested features, every requested feature is in
exactly one of the two lists (features whose test failed with a
not-a-number p-value included), the lists are disjoint, and each list
preserves the original request order. -/
theorem get_signatures_partition (ks2samp ttest : TestFn) (ptest : PermTestFn)
    (g : GlobalRng) (ref_profiles exp_profiles : Profile)
    (morph_feats : List String) (method fdr_method : String) (p_threshold : ℚ)
    (nres seed : Nat) (on_feats off_feats : List String)
    (hnd : morph_feats.Nodup)
    (hok : (get_signatures ks2samp ttest ptest g ref_profiles exp_profiles
      morph_feats method fdr_method p_threshold nres seed).1
      = .ok (on_feats, off_feats)) :
    on_feats.length + off_feats.length = morph_feats.length
    ∧ (∀ f, f ∈ morph_feats ↔ (f ∈ on_feats ∨ f ∈ off_feats))
    ∧ (∀ f, f ∈ on_feats → f ∉ off_feats)
    ∧ on_feats.Sublist morph_feats ∧ off_feats.Sublist morph_feats := by
  obtain ⟨hm, base, hcore, hon, hoff⟩ := get_signatures_fst_ok_elim _ _ _ _ _ _ _ _ _
    _ _ _ _ _ hok
  have hfst := run_stat_core_features _ _ _ _ _ _ _ _ _ _ _ _ hm hnd hcore
  obtain ⟨hlen, hmem, hdisj, hsub1, hsub2⟩ := partition_spec base morph_feats
    (fun r => significance_flag r.2.2 p_threshold) hfst hnd
  subst hon
  subst hoff
  exact ⟨hlen, hmem, hdisj, hsub1, hsub2⟩

/-- C4: significance classification is a strict comparison of the corrected
p-value against the threshold: a number is flagged significant exactly when
it is strictly below the threshold, an exact tie is not significant, and a
not-a-number corrected p-value is never significant. -/
theorem significance_flag_strict_lt (p t : ℚ) :
    (significance_flag (some p) t = true ↔ p < t)
    ∧ significance_flag (some t) t = false
    ∧ significance_flag none t = false := by
  refine ⟨?_, ?_, rfl⟩
  · simp [significance_flag]
  · simp [significance_flag]

/-- C8: the multiple-testing correction succeeds on every ordered p-value
sequence, including sequences with not-a-number entries, and returns a
sequence of the same length aligned with the input positions (in
particular a not-a-number input position stays not-a-number). -/
theorem p_val_correction_same_length (p_values : List PVal) (method : String)
    (hm : method ∈ correction_methods) :
    ∃ corrected, p_val_correction p_values method = .ok corrected
      ∧ corrected.length = p_values.length
      ∧ ∀ j : Nat, p_values[j]? = some none → corrected[j]? = some none :=
  p_val_correction_spec p_values method hm

theorem p_val_correction_same_length_witness :
    ("fdr_bh" ∈ correction_methods)
    ∧ ∃ corrected,
        p_val_correction [some (mkRat 1 2), none, some (mkRat 1 3)] "fdr_bh" = .ok corrected
        ∧ corrected.length = ([some (mkRat 1 2), none, some (mkRat 1 3)] : List PVal).length
        ∧ ∀ j : Nat, ([some (mkRat 1 2), none, some (mkRat 1 3)] : List PVal)[j]? = some none
            → corrected[j]? = some none := by
  have hm : "fdr_bh" ∈ correction_methods := by decide
  exact ⟨hm, p_val_correction_same_length [some (mkRat 1 2), none, some (mkRat 1 3)] "fdr_bh" hm⟩

/-- C6: with everything fixed except the significance threshold, a feature
on the on-list at a threshold stays on the on-list at any larger threshold,
and never moves to the off-list: raising the threshold only moves features
from off to on. -/
theorem get_signatures_threshold_monotone (ks2samp ttest : TestFn)
    (ptest : PermTestFn) (g : GlobalRng) (ref_profiles exp_profiles : Profile)
    (morph_feats : List String) (method fdr_method : String) (t1 t2 : ℚ)
    (nres seed : Nat) (on1 off1 on2 off2 : List String)
    (hnd : morph_feats.Nodup) (ht : t1 ≤ t2)
    (h1 : (get_signatures ks2samp ttest ptest g ref_profiles exp_profiles
      morph_feats method fdr_method t1 nres seed).1 = .ok (on1, off1))
    (h2 : (get_signatures ks2samp ttest ptest g ref_profiles exp_profiles
      morph_feats method fdr_method t2 nres seed).1 = .ok (on2, off2)) :
    (∀ f, f ∈ on1 → f ∈ on2) ∧ (∀ f, f ∈ on1 → f ∉ off2) := by
  obtain ⟨hm, base1, hcore1, hon1, hoff1⟩ := get_signatures_fst_ok_elim _ _ _ _ _ _ _
    _ _ _ _ _ _ _ h1
  obtain ⟨_, base2, hcore2, hon2, hoff2⟩ := get_signatures_fst_ok_elim _ _ _ _ _ _ _
    _ _ _ _ _ _ _ h2
  rw [hcore1] at hcore2
  injection hcore2 with hbase
  subst hbase
  have hfst := run_stat_core_features _ _ _ _ _ _ _ _ _ _ _ _ hm hnd hcore1
  have hmono : ∀ r : String × PVal × PVal,
      significance_flag r.2.2 t1 = true → significance_flag r.2.2 t2 = true := by
    intro r hr
    cases hc : r.2.2 with
    | none =>
      rw [hc] at hr
      exact absurd hr (by simp [significance_flag])
    | some v =>
      rw [hc] at hr
      simp only [significance_flag, decide_eq_true_eq] at hr ⊢
      exact lt_of_lt_of_le hr ht
  constructor
  · intro f hf
    rw [hon1] at hf
    rw [hon2]
    rcases List.mem_map.mp hf with ⟨r, hrmem, rfl⟩
    have hrf := List.mem_filter.mp hrmem
    exact List.mem_map_of_mem _ (List.mem_filter.mpr ⟨hrf.1, hmono r hrf.2⟩)
  · intro f hf hoffmem
    rw [hon1] at hf
    rw [hoff2] at hoffmem
    rcases List.mem_map.mp hf with ⟨r1, hr1, hfr1⟩
    rcases List.mem_map.mp hoffmem with ⟨r2, hr2, hfr2⟩
    have h1f := List.mem_filter.mp hr1
    have h2f := List.mem_filter.mp hr2
    have hinj := List.inj_on_of_nodup_map
      (show (base1.map (fun r => r.1)).Nodup by rw [hfst]; exact hnd)
    have heq : r1 = r2 := hinj h1f.1 h2f.1 (by rw [hfr1, hfr2])
    have hs2 := hmono r1 h1f.2
    rw [heq] at hs2
    have hneg := h2f.2
    rw [hs2] at hneg
    simp at hneg

/-- C7: with the permutation method and all explicit arguments identical,
two invocations of get_signatures return the same pair of feature lists,
whatever the ambient process-wide random state was in each: the explicit
seed fully determines the outcome. -/
theorem get_signatures_permutation_deterministic (ks2samp ttest : TestFn)
    (ptest : PermTestFn) (g1 g2 : GlobalRng)
    (ref_profiles exp_profiles : Profile) (morph_feats : List String)
    (fdr_method : String) (p_threshold : ℚ) (nres seed : Nat) :
    (get_signatures ks2samp ttest ptest g1 ref_profiles exp_profiles morph_feats
      "permutation_test" fdr_method p_threshold nres seed).1
    = (get_signatures ks2samp ttest ptest g2 ref_profiles exp_profiles morph_feats
      "permutation_test" fdr_method p_threshold nres seed).1 := rfl

/-- C9 (amended): get_signatures does set the process-wide random state (it
resets it from the seed on entry, as np.random.seed does), but because of
that reset the returned feature lists never depend on the incoming ambient
random state: the explicit arguments alone determine the result. -/
theorem get_signatures_ambient_state (ks2samp ttest : TestFn) (ptest : PermTestFn)
    (g1 g2 : GlobalRng) (ref_profiles exp_profiles : Profile)
    (morph_feats : List String) (method fdr_method : String) (p_threshold : ℚ)
    (nres seed : Nat) :
    (get_signatures ks2samp ttest ptest g1 ref_profiles exp_profiles morph_feats
        method fdr_method p_threshold nres seed).1
      = (get_signatures ks2samp ttest ptest g2 ref_profiles exp_profiles morph_feats
        method fdr_method p_threshold nres seed).1
    ∧ (get_signatures ks2samp ttest ptest g1 ref_profiles exp_profiles morph_feats
        method fdr_method p_threshold nres seed).2
      = np_random_seed seed g1 := by
  constructor
  · rfl
  · by_cases hm : method ∈ supported_methods
    · simp only [get_signatures, if_pos hm]
      cases run_stat_test ks2samp ttest ptest (np_random_seed seed g1)
        ref_profiles exp_profiles morph_feats method fdr_method p_threshold
        nres seed <;> rfl
    · simp only [get_signatures, if_neg hm]

/-- Scenario test function: every call succeeds with p-value one percent. -/
def ksConst : TestFn := fun _ _ _ => .ok (mkRat 1 100)

/-- Scenario test function for the Welch branch, identical to ksConst. -/
def ttConst : TestFn := fun _ _ _ => .ok (mkRat 1 100)

/-- Scenario permutation test function: every call succeeds with p-value
one percent. -/
def ptConst : PermTestFn := fun _ _ _ _ _ => .ok (mkRat 1 100)

/-- Scenario reference profile with columns A and B. -/
def refProfA : Profile := ⟨[("A", [0, 1]), ("B", [2, 3])]⟩

/-- Scenario experimental profile with columns A and B. -/
def expProfA : Profile := ⟨[("A", [1, 2]), ("B", [3, 4])]⟩

/-- C9 counterexample: the claim that no operation of the core sets the
ambient process-wide random state is false: a call entered with ambient
state 7 leaves a different ambient state behind (the seed it was given). -/
theorem get_signatures_mutates_global_state :
    (get_signatures ksConst ttConst ptConst 7 refProfA expProfA ["A"]
      "ks_test" "fdr_bh" (mkRat 1 20) 1000 0).2 ≠ 7 := by decide

theorem get_signatures_partition_witness :
    (["A", "B"] : List String).Nodup
    ∧ (get_signatures ksConst ttConst ptConst 7 refProfA expProfA ["A", "B"]
        "ks_test" "fdr_bh" (mkRat 1 20) 1000 0).1 = .ok (["A", "B"], [])
    ∧ ((["A", "B"] : List String).length + ([] : List String).length
          = (["A", "B"] : List String).length
        ∧ (∀ f, f ∈ (["A", "B"] : List String)
            ↔ (f ∈ (["A", "B"] : List String) ∨ f ∈ ([] : List String)))
        ∧ (∀ f, f ∈ (["A", "B"] : List String) → f ∉ ([] : List String))
        ∧ (["A", "B"] : List String).Sublist ["A", "B"]
        ∧ ([] : List String).Sublist ["A", "B"]) := by
  have hnd : (["A", "B"] : List String).Nodup := by decide
  have hok : (get_signatures ksConst ttConst ptConst 7 refProfA expProfA ["A", "B"]
      "ks_test" "fdr_bh" (mkRat 1 20) 1000 0).1 = .ok (["A", "B"], []) := by decide
  exact ⟨hnd, hok,
    get_signatures_partition _ _ _ _ _ _ _ _ _ _ _ _ _ _ hnd hok⟩

theorem get_signatures_threshold_monotone_witness :
    (["A", "B"] : List String).Nodup
    ∧ (mkRat 1 200 ≤ mkRat 1 20)
    ∧ (get_signatures ksConst ttConst ptConst 7 refProfA expProfA ["A", "B"]
        "ks_test" "fdr_bh" (mkRat 1 200) 1000 0).1 = .ok ([], ["A", "B"])
    ∧ (get_signatures ksConst ttConst ptConst 7 refProfA expProfA ["A", "B"]
        "ks_test" "fdr_bh" (mkRat 1 20) 1000 0).1 = .ok (["A", "B"], [])
    ∧ ((∀ f, f ∈ ([] : List String) → f ∈ (["A", "B"] : List String))
        ∧ (∀ f, f ∈ ([] : List String) → f ∉ ([] : List String))) := by
  have hnd : (["A", "B"] : List String).Nodup := by decide
  have ht : mkRat 1 200 ≤ mkRat 1 20 := by decide
  have h1 : (get_signatures ksConst ttConst ptConst 7 refProfA expProfA ["A", "B"]
      "ks_test" "fdr_bh" (mkRat 1 200) 1000 0).1 = .ok ([], ["A", "B"]) := by decide
  have h2 : (get_signatures ksConst ttConst ptConst 7 refProfA expProfA ["A", "B"]
      "ks_test" "fdr_bh" (mkRat 1 20) 1000 0).1 = .ok (["A", "B"], []) := by decide
  exact ⟨hnd, ht, h1, h2,
    get_signatures_threshold_monotone _ _ _ _ _ _ _ _ _ _ _ _ _ _ _ _ _ hnd ht h1 h2⟩

/-- C2 (amended): the orchestrator accepts exactly the three method names
ks_test, permutation_test and welchs_ttest; for each of them it dispatches
to the corresponding test routine, and for every other method string
(including weighted_ks and the spelling welch_ttest) it raises a
descriptive ValueError before any per-feature computation starts. -/
theorem get_signatures_method_validation (ks2samp ttest : TestFn)
    (ptest : PermTestFn) (g : GlobalRng) (ref_profiles exp_profiles : Profile)
    (morph_feats : List String) (method fdr_method : String) (p_threshold : ℚ)
    (nres seed : Nat) :
    (method ∈ supported_methods
      ↔ (method = "ks_test" ∨ method = "permutation_test"
          ∨ method = "welchs_ttest"))
    ∧ (method ∉ supported_methods →
        (get_signatures ks2samp ttest ptest g ref_profiles exp_profiles
          morph_feats method fdr_method p_threshold nres seed).1
        = .error (.valueError (method ++ " is not a valid method")))
    ∧ (method ∈ supported_methods →
        (get_signatures ks2samp ttest ptest g ref_profiles exp_profiles
          morph_feats method fdr_method p_threshold nres seed).1
        = (run_stat_test ks2samp ttest ptest (np_random_seed seed g)
            ref_profiles exp_profiles morph_feats method fdr_method p_threshold
            nres seed).map split_morphology_features)
    ∧ run_stat_test ks2samp ttest ptest (np_random_seed seed g) ref_profiles
        exp_profiles morph_feats "ks_test" fdr_method p_threshold nres seed
      = ks_test ks2samp (np_random_seed seed g) ref_profiles exp_profiles
          morph_feats fdr_method p_threshold
    ∧ run_stat_test ks2samp ttest ptest (np_random_seed seed g) ref_profiles
        exp_profiles morph_feats "permutation_test" fdr_method p_threshold nres seed
      = permutation ptest (np_random_seed seed g) ref_profiles exp_profiles
          morph_feats nres fdr_method p_threshold seed
    ∧ run_stat_test ks2samp ttest ptest (np_random_seed seed g) ref_profiles
        exp_profiles morph_feats "welchs_ttest" fdr_method p_threshold nres seed
      = welchs_ttest ttest (np_random_seed seed g) ref_profiles exp_profiles
          morph_feats fdr_method p_threshold := by
  refine ⟨?_, ?_, ?_, ?_, ?_, ?_⟩
  · simp [supported_methods]
  · intro hm
    simp only [get_signatures, if_neg hm]
  · intro hm
    simp only [get_signatures, if_pos hm]
    cases run_stat_test ks2samp ttest ptest (np_random_seed seed g) ref_profiles
      exp_profiles morph_feats method fdr_method p_threshold nres seed <;> rfl
  · simp [run_stat_test]
  · simp [run_stat_test]
  · simp [run_stat_test]

/-- C2 counterexample: weighted_ks is one of the four method names the
claim says the orchestrator accepts, yet the call raises the unsupported
method ValueError instead of proceeding to any test. -/
theorem get_signatures_weighted_ks_rejected :
    (get_signatures ksConst ttConst ptConst 0 refProfA expProfA ["A"]
      "weighted_ks" "fdr_bh" (mkRat 1 20) 1000 0).1
    = .error (.valueError "weighted_ks is not a valid method") := by decide

theorem get_signatures_method_validation_witness :
    ("welch_ttest" ∉ supported_methods)
    ∧ (get_signatures ksConst ttConst ptConst 0 refProfA expProfA ["A"]
        "welch_ttest" "fdr_bh" (mkRat 1 20) 1000 0).1
      = .error (.valueError ("welch_ttest" ++ " is not a valid method")) := by
  have hm : "welch_ttest" ∉ supported_methods := by decide
  exact ⟨hm, (get_signatures_method_validation ksConst ttConst ptConst 0 refProfA
    expProfA ["A"] "welch_ttest" "fdr_bh" (mkRat 1 20) 1000 0).2.1 hm⟩

theorem feat_raw_ks (ks2samp ttest : TestFn) (ptest : PermTestFn) (g : GlobalRng)
    (ref_profiles exp_profiles : Profile) (nres seed : Nat) (f : String)
    (rv ev : List ℚ)
    (hrv : ref_profiles.get f = some rv) (hev : exp_profiles.get f = some ev) :
    feat_raw ks2samp ttest ptest "ks_test" g ref_profiles exp_profiles nres seed f
      = ks2samp g rv ev := by
  unfold feat_raw
  rw [hrv, hev]
  rfl

theorem feat_raw_perm (ks2samp ttest : TestFn) (ptest : PermTestFn) (g : GlobalRng)
    (ref_profiles exp_profiles : Profile) (nres seed : Nat) (f : String)
    (rv ev : List ℚ)
    (hrv : ref_profiles.get f = some rv) (hev : exp_profiles.get f = some ev) :
    feat_raw ks2samp ttest ptest "permutation_test" g ref_profiles exp_profiles
        nres seed f
      = ptest g nres seed rv ev := by
  unfold feat_raw
  rw [hrv, hev]
  rfl

theorem feat_raw_welch (ks2samp ttest : TestFn) (ptest : PermTestFn) (g : GlobalRng)
    (ref_profiles exp_profiles : Profile) (nres seed : Nat) (f : String)
    (rv ev : List ℚ)
    (hrv : ref_profiles.get f = some rv) (hev : exp_profiles.get f = some ev) :
    feat_raw ks2samp ttest ptest "welchs_ttest" g ref_profiles exp_profiles
        nres seed f
      = ttest g rv ev := by
  unfold feat_raw
  rw [hrv, hev]
  rfl

theorem ks_step_none_of_missing (ks2samp : TestFn) (g : GlobalRng)
    (ref_profiles exp_profiles : Profile) (f : String)
    (hmiss : ref_profiles.get f = none ∨ exp_profiles.get f = none) :
    ks_step ks2samp g ref_profiles exp_profiles f = none := by
  unfold ks_step
  cases hr : ref_profiles.get f with
  | none => rfl
  | some rv =>
    cases he : exp_profiles.get f with
    | none => rfl
    | some ev =>
      rcases hmiss with h | h
      · rw [hr] at h; cases h
      · rw [he] at h; cases h

theorem run_ok_off_membership (ks2samp ttest : TestFn) (ptest : PermTestFn)
    (g : GlobalRng) (ref_profiles exp_profiles : Profile) (fs : List String)
    (method fdr_method : String) (t : ℚ) (nres seed : Nat) (f : String)
    (base : List (String × PVal × PVal))
    (hm : method ∈ supported_methods) (hnd : fs.Nodup)
    (hcore : run_stat_core ks2samp ttest ptest (np_random_seed seed g)
      ref_profiles exp_profiles fs method fdr_method nres seed = .ok base)
    (hrow : (f, (none : Option ℚ), (none : Option ℚ)) ∈ base)
    (hfst : base.map (fun r => r.1) = fs) :
    ∃ pvals_df, run_stat_test ks2samp ttest ptest (np_random_seed seed g)
        ref_profiles exp_profiles fs method fdr_method t nres seed = .ok pvals_df
      ∧ (⟨f, none, none, false⟩ : FeatureRow) ∈ pvals_df
      ∧ (get_signatures ks2samp ttest ptest g ref_profiles exp_profiles fs
          method fdr_method t nres seed).1
        = .ok (split_morphology_features pvals_df)
      ∧ f ∈ (split_morphology_features pvals_df).2
      ∧ (split_morphology_features pvals_df).1.length
          + (split_morphology_features pvals_df).2.length = fs.length := by
  refine ⟨add_significance_label base t, ?_, ?_, ?_, ?_, ?_⟩
  · rw [run_stat_test_eq_core, hcore]
    rfl
  · exact List.mem_map_of_mem
      (fun r : String × PVal × PVal =>
        (⟨r.1, r.2.1, r.2.2, significance_flag r.2.2 t⟩ : FeatureRow)) hrow
  · exact get_signatures_fst_ok_intro _ _ _ _ _ _ _ _ _ _ _ _ _ hm hcore
  · rw [split_add_significance_label]
    exact List.mem_map_of_mem _ (List.mem_filter.mpr ⟨hrow, rfl⟩)
  · rw [split_add_significance_label]
    obtain ⟨hlen, _, _, _, _⟩ := partition_spec base fs
      (fun r => significance_flag r.2.2 t) hfst hnd
    exact hlen

/-- C5: when the statistical routine fails recoverably for some feature
(the ValueError raised on degenerate or insufficient data), under every
supported method the batch still completes: the failed feature is recorded
with a not-a-number p-value in the result dataframe, every requested
feature is still processed, and the returned partition is complete with
the failed feature routed to the off list. -/
theorem per_feature_failure_continues (ks2samp ttest : TestFn) (ptest : PermTestFn)
    (g : GlobalRng) (ref_profiles exp_profiles : Profile)
    (morph_feats : List String) (method fdr_method : String) (t : ℚ)
    (nres seed : Nat) (f : String) (msg : String)
    (hm : method ∈ supported_methods)
    (hnd : morph_feats.Nodup)
    (hcm : fdr_method ∈ correction_methods)
    (hcols : ∀ x ∈ morph_feats,
      (ref_profiles.get x).isSome ∧ (exp_profiles.get x).isSome)
    (hrec : ∀ x ∈ morph_feats,
      recoverable (feat_raw ks2samp ttest ptest method (np_random_seed seed g)
        ref_profiles exp_profiles nres seed x) = true)
    (hf : f ∈ morph_feats)
    (hfail : feat_raw ks2samp ttest ptest method (np_random_seed seed g)
      ref_profiles exp_profiles nres seed f = .error (.valueError msg)) :
    ∃ pvals_df, run_stat_test ks2samp ttest ptest (np_random_seed seed g)
        ref_profiles exp_profiles morph_feats method fdr_method t nres seed
        = .ok pvals_df
      ∧ (⟨f, none, none, false⟩ : FeatureRow) ∈ pvals_df
      ∧ (get_signatures ks2samp ttest ptest g ref_profiles exp_profiles
          morph_feats method fdr_method t nres seed).1
        = .ok (split_morphology_features pvals_df)
      ∧ f ∈ (split_morphology_features pvals_df).2
      ∧ (split_morphology_features pvals_df).1.length
          + (split_morphology_features pvals_df).2.length
        = morph_feats.length := by
  obtain ⟨j, hj⟩ := List.mem_iff_getElem?.mp hf
  rcases hcols f hf with ⟨hs1, hs2⟩
  rcases Option.isSome_iff_exists.mp hs1 with ⟨rv, hrv⟩
  rcases Option.isSome_iff_exists.mp hs2 with ⟨ev, hev⟩
  rcases List.mem_cons.mp hm with rfl | hm'
  · -- ks_test
    have hraw : ks2samp (np_random_seed seed g) rv ev = .error (.valueError msg) :=
      (feat_raw_ks ks2samp ttest ptest _ ref_profiles exp_profiles nres seed f
        rv ev hrv hev).symm.trans hfail
    have hstep : ks_step ks2samp (np_random_seed seed g) ref_profiles exp_profiles f
        = none := by
      rw [ks_step_eq ks2samp _ ref_profiles exp_profiles f rv ev hrv hev, hraw]
      rfl
    obtain ⟨cs, hcoreo, hcslen, hnone⟩ := ks_core_ok ks2samp (np_random_seed seed g)
      ref_profiles exp_profiles morph_feats fdr_method hnd hcm
    have hcore : run_stat_core ks2samp ttest ptest (np_random_seed seed g)
        ref_profiles exp_profiles morph_feats "ks_test" fdr_method nres seed
        = .ok (mk_pval_rows morph_feats
            (morph_feats.map (ks_step ks2samp (np_random_seed seed g)
              ref_profiles exp_profiles)) cs) := by
      rw [run_stat_core_ks]
      exact hcoreo
    have hpv : (morph_feats.map (ks_step ks2samp (np_random_seed seed g)
        ref_profiles exp_profiles))[j]? = some none := by
      rw [List.getElem?_map, hj]
      simp [hstep]
    have hrow := mk_pval_rows_mem morph_feats _ cs j f none none hj hpv (hnone j hpv)
    have hfst := mk_pval_rows_fst morph_feats
      (morph_feats.map (ks_step ks2samp (np_random_seed seed g)
        ref_profiles exp_profiles)) cs (by simp) hcslen
    exact run_ok_off_membership _ _ _ _ _ _ _ _ _ _ _ _ _ _
      (by decide) hnd hcore hrow hfst
  · rcases List.mem_cons.mp hm' with rfl | hm''
    · -- permutation_test
      have hraw : ptest (np_random_seed seed g) nres seed rv ev
          = .error (.valueError msg) :=
        (feat_raw_perm ks2samp ttest ptest _ ref_profiles exp_profiles nres seed f
          rv ev hrv hev).symm.trans hfail
      have hstep : okvalP (perm_step ptest (np_random_seed seed g) ref_profiles
          exp_profiles nres seed f) = none := by
        rw [perm_step_eq ptest _ ref_profiles exp_profiles nres seed f rv ev hrv hev,
          hraw]
        rfl
      obtain ⟨cs, hcoreo, hcslen, hnone⟩ := perm_core_ok ptest (np_random_seed seed g)
        ref_profiles exp_profiles morph_feats nres fdr_method seed hnd hcm hcols
      have hcore : run_stat_core ks2samp ttest ptest (np_random_seed seed g)
          ref_profiles exp_profiles morph_feats "permutation_test" fdr_method nres seed
          = .ok (mk_pval_rows morph_feats
              (morph_feats.map (fun x =>
                okvalP (perm_step ptest (np_random_seed seed g) ref_profiles
                  exp_profiles nres seed x))) cs) := by
        rw [run_stat_core_perm]
        exact hcoreo
      have hpv : (morph_feats.map (fun x =>
          okvalP (perm_step ptest (np_random_seed seed g) ref_profiles exp_profiles
            nres seed x)))[j]? = some none := by
        rw [List.getElem?_map, hj]
        simp [hstep]
      have hrow := mk_pval_rows_mem morph_feats _ cs j f none none hj hpv (hnone j hpv)
      have hfst := mk_pval_rows_fst morph_feats
        (morph_feats.map (fun x =>
          okvalP (perm_step ptest (np_random_seed seed g) ref_profiles exp_profiles
            nres seed x))) cs (by simp) hcslen
      exact run_ok_off_membership _ _ _ _ _ _ _ _ _ _ _ _ _ _
        (by decide) hnd hcore hrow hfst
    · rcases List.mem_cons.mp hm'' with rfl | hm3
      · -- welchs_ttest
        have hraw : ttest (np_random_seed seed g) rv ev = .error (.valueError msg) :=
          (feat_raw_welch ks2samp ttest ptest _ ref_profiles exp_profiles nres seed f
            rv ev hrv hev).symm.trans hfail
        have hsteps : ∀ x ∈ morph_feats,
            ∃ v, welch_step ttest (np_random_seed seed g) ref_profiles exp_profiles x
              = .ok v := by
          intro x hx
          rcases hcols x hx with ⟨hx1, hx2⟩
          rcases Option.isSome_iff_exists.mp hx1 with ⟨rvx, hrvx⟩
          rcases Option.isSome_iff_exists.mp hx2 with ⟨evx, hevx⟩
          have hrawx := feat_raw_welch ks2samp ttest ptest (np_random_seed seed g)
            ref_profiles exp_profiles nres seed x rvx evx hrvx hevx
          have hrecx := hrec x hx
          rw [hrawx] at hrecx
          cases htt : ttest (np_random_seed seed g) rvx evx with
          | ok v =>
            exact ⟨some v, welch_step_eq_of_ok ttest _ ref_profiles exp_profiles x
              rvx evx v hrvx hevx htt⟩
          | error e =>
            rw [htt] at hrecx
            cases e with
            | valueError m =>
              exact ⟨none, welch_step_eq_of_value_error ttest _ ref_profiles
                exp_profiles x rvx evx m hrvx hevx htt⟩
            | typeError m => simp [recoverable, is_value_error] at hrecx
            | shapeError m => simp [recoverable, is_value_error] at hrecx
            | columnNotFound m => simp [recoverable, is_value_error] at hrecx
        have hstep : okvalP (welch_step ttest (np_random_seed seed g) ref_profiles
            exp_profiles f) = none := by
          rw [welch_step_eq_of_value_error ttest _ ref_profiles exp_profiles f rv ev
            msg hrv hev hraw]
          rfl
        obtain ⟨cs, hcoreo, hcslen, hnone⟩ := welch_core_ok ttest (np_random_seed seed g)
          ref_profiles exp_profiles morph_feats fdr_method hnd hcm hsteps
        have hcore : run_stat_core ks2samp ttest ptest (np_random_seed seed g)
            ref_profiles exp_profiles morph_feats "welchs_ttest" fdr_method nres seed
            = .ok (mk_pval_rows morph_feats
                (morph_feats.map (fun x =>
                  okvalP (welch_step ttest (np_random_seed seed g) ref_profiles
                    exp_profiles x))) cs) := by
          rw [run_stat_core_welch]
          exact hcoreo
        have hpv : (morph_feats.map (fun x =>
            okvalP (welch_step ttest (np_random_seed seed g) ref_profiles
              exp_profiles x)))[j]? = some none := by
          rw [List.getElem?_map, hj]
          simp [hstep]
        have hrow := mk_pval_rows_mem morph_feats _ cs j f none none hj hpv
          (hnone j hpv)
        have hfst := mk_pval_rows_fst morph_feats
          (morph_feats.map (fun x =>
            okvalP (welch_step ttest (np_random_seed seed g) ref_profiles
              exp_profiles x))) cs (by simp) hcslen
        exact run_ok_off_membership _ _ _ _ _ _ _ _ _ _ _ _ _ _
          (by decide) hnd hcore hrow hfst
      · cases hm3

/-- Scenario test function that raises ValueError on the degenerate
reference column [9] and succeeds elsewhere. -/
def ksFail : TestFn := fun _ rv _ =>
  if rv = [(9 : ℚ)] then .error (.valueError "degenerate") else .ok (mkRat 1 100)

/-- Scenario reference profile whose column B is degenerate. -/
def refProfB : Profile := ⟨[("A", [0]), ("B", [9])]⟩

/-- Scenario experimental profile matching refProfB. -/
def expProfB : Profile := ⟨[("A", [1]), ("B", [9])]⟩

theorem per_feature_failure_continues_witness :
    ("ks_test" ∈ supported_methods)
    ∧ (["A", "B"] : List String).Nodup
    ∧ ("fdr_bh" ∈ correction_methods)
    ∧ (∀ x ∈ (["A", "B"] : List String),
        (Profile.get refProfB x).isSome ∧ (Profile.get expProfB x).isSome)
    ∧ (∀ x ∈ (["A", "B"] : List String),
        recoverable (feat_raw ksFail ttConst ptConst "ks_test" (np_random_seed 0 3)
          refProfB expProfB 1000 0 x) = true)
    ∧ ("B" ∈ (["A", "B"] : List String))
    ∧ feat_raw ksFail ttConst ptConst "ks_test" (np_random_seed 0 3) refProfB
        expProfB 1000 0 "B" = .error (.valueError "degenerate")
    ∧ (∃ pvals_df, run_stat_test ksFail ttConst ptConst (np_random_seed 0 3)
          refProfB expProfB ["A", "B"] "ks_test" "fdr_bh" (mkRat 1 20) 1000 0
          = .ok pvals_df
        ∧ (⟨"B", none, none, false⟩ : FeatureRow) ∈ pvals_df
        ∧ (get_signatures ksFail ttConst ptConst 3 refProfB expProfB ["A", "B"]
            "ks_test" "fdr_bh" (mkRat 1 20) 1000 0).1
          = .ok (split_morphology_features pvals_df)
        ∧ "B" ∈ (split_morphology_features pvals_df).2
        ∧ (split_morphology_features pvals_df).1.length
            + (split_morphology_features pvals_df).2.length
          = (["A", "B"] : List String).length) := by
  refine ⟨by decide, by decide, by decide, by decide, by decide, by decide,
    by decide, ?_⟩
  exact per_feature_failure_continues ksFail ttConst ptConst 3 refProfB expProfB
    ["A", "B"] "ks_test" "fdr_bh" (mkRat 1 20) 1000 0 "B" "degenerate"
    (by decide) (by decide) (by decide) (by decide) (by decide) (by decide)
    (by decide)

/-- Scenario reference profile missing the column B. -/
def refProfC : Profile := ⟨[("A", [0])]⟩

/-- Scenario experimental profile containing columns A and B. -/
def expProfC : Profile := ⟨[("A", [0]), ("B", [1])]⟩

/-- C3 counterexample: requesting feature B, which is absent from the
reference profile, under the ks_test method raises no input validation
error at all: the call returns a normal partition and silently routes B
(and, through the not-a-number propagation of the correction, A as well)
into the off list. -/
theorem missing_column_no_validation_error :
    (get_signatures ksConst ttConst ptConst 0 refProfC expProfC ["A", "B"]
      "ks_test" "fdr_bh" (mkRat 1 20) 1000 0).1 = .ok ([], ["A", "B"]) := by decide

/-- C3 (amended): get_signatures performs no upfront validation of feature
presence.  Under the ks_test method a requested feature absent from either
profile is caught inside the per-feature try block, recorded with a
not-a-number p-value, and routed to the off list of a normally returned
complete partition; no error is raised. -/
theorem ks_missing_column_routed_off (ks2samp ttest : TestFn) (ptest : PermTestFn)
    (g : GlobalRng) (ref_profiles exp_profiles : Profile)
    (morph_feats : List String) (fdr_method : String) (t : ℚ)
    (nres seed : Nat) (x : String)
    (hnd : morph_feats.Nodup)
    (hcm : fdr_method ∈ correction_methods)
    (hx : x ∈ morph_feats)
    (hmiss : ref_profiles.get x = none ∨ exp_profiles.get x = none) :
    ∃ on_feats off_feats,
      (get_signatures ks2samp ttest ptest g ref_profiles exp_profiles morph_feats
        "ks_test" fdr_method t nres seed).1 = .ok (on_feats, off_feats)
      ∧ x ∈ off_feats
      ∧ on_feats.length + off_feats.length = morph_feats.length := by
  obtain ⟨j, hj⟩ := List.mem_iff_getElem?.mp hx
  have hstep := ks_step_none_of_missing ks2samp (np_random_seed seed g)
    ref_profiles exp_profiles x hmiss
  obtain ⟨cs, hcoreo, hcslen, hnone⟩ := ks_core_ok ks2samp (np_random_seed seed g)
    ref_profiles exp_profiles morph_feats fdr_method hnd hcm
  have hcore : run_stat_core ks2samp ttest ptest (np_random_seed seed g)
      ref_profiles exp_profiles morph_feats "ks_test" fdr_method nres seed
      = .ok (mk_pval_rows morph_feats
          (morph_feats.map (ks_step ks2samp (np_random_seed seed g)
            ref_profiles exp_profiles)) cs) := by
    rw [run_stat_core_ks]
    exact hcoreo
  have hpv : (morph_feats.map (ks_step ks2samp (np_random_seed seed g)
      ref_profiles exp_profiles))[j]? = some none := by
    rw [List.getElem?_map, hj]
    simp [hstep]
  have hrow := mk_pval_rows_mem morph_feats _ cs j x none none hj hpv (hnone j hpv)
  have hfst := mk_pval_rows_fst morph_feats
    (morph_feats.map (ks_step ks2samp (np_random_seed seed g)
      ref_profiles exp_profiles)) cs (by simp) hcslen
  obtain ⟨pvals_df, _, _, hget, hoff, hlen⟩ := run_ok_off_membership ks2samp ttest
    ptest g ref_profiles exp_profiles morph_feats "ks_test" fdr_method t nres seed
    x _ (by decide) hnd hcore hrow hfst
  exact ⟨(split_morphology_features pvals_df).1,
    (split_morphology_features pvals_df).2, hget, hoff, hlen⟩

theorem ks_missing_column_routed_off_witness :
    (["A", "B"] : List String).Nodup
    ∧ ("fdr_bh" ∈ correction_methods)
    ∧ ("B" ∈ (["A", "B"] : List String))
    ∧ (Profile.get refProfC "B" = none ∨ Profile.get expProfC "B" = none)
    ∧ ∃ on_feats off_feats,
        (get_signatures ksConst ttConst ptConst 0 refProfC expProfC ["A", "B"]
          "ks_test" "fdr_bh" (mkRat 1 20) 1000 0).1 = .ok (on_feats, off_feats)
        ∧ "B" ∈ off_feats
        ∧ on_feats.length + off_feats.length = (["A", "B"] : List String).length := by
  refine ⟨by decide, by decide, by decide, Or.inl (by decide), ?_⟩
  exact ks_missing_column_routed_off ksConst ttConst ptConst 0 refProfC expProfC
    ["A", "B"] "fdr_bh" (mkRat 1 20) 1000 0 "B" (by decide) (by decide) (by decide)
    (Or.inl (by decide))

/-- C10: a duplicated name in the requested feature list makes the two
result-assembly strategies diverge: under ks_test the features column (the
raw request) and the p-value column (the deduplicating dict values) have
different lengths, so building the dataframe raises a ShapeError instead
of returning a partition; under permutation_test both columns come from
the dict, so the duplicate is silently collapsed and the returned
partition covers strictly fewer entries than the request. -/
theorem duplicate_features_divergence (ks2samp ttest : TestFn) (ptest : PermTestFn)
    (g : GlobalRng) (ref_profiles exp_profiles : Profile)
    (morph_feats : List String) (fdr_method : String) (t : ℚ) (nres seed : Nat)
    (hdup : ¬ morph_feats.Nodup)
    (hcm : fdr_method ∈ correction_methods)
    (hcols : ∀ x ∈ morph_feats,
      (ref_profiles.get x).isSome ∧ (exp_profiles.get x).isSome) :
    (get_signatures ks2samp ttest ptest g ref_profiles exp_profiles morph_feats
        "ks_test" fdr_method t nres seed).1
      = .error (.shapeError "series have different lengths")
    ∧ ∃ on_feats off_feats,
        (get_signatures ks2samp ttest ptest g ref_profiles exp_profiles morph_feats
          "permutation_test" fdr_method t nres seed).1 = .ok (on_feats, off_feats)
        ∧ on_feats.length + off_feats.length < morph_feats.length := by
  have hkeys_lt : (dict_keys_after [] morph_feats).length < morph_feats.length := by
    have := dict_keys_after_lt_of_not_nodup [] morph_feats hdup
    simpa using this
  constructor
  · have hks : ks_core ks2samp (np_random_seed seed g) ref_profiles exp_profiles
        morph_feats fdr_method
        = .error (.shapeError "series have different lengths") := by
      simp only [ks_core]
      rw [dict_loop_nil_mapform]
      rw [if_neg (by rw [List.length_map]; omega)]
    have hm : "ks_test" ∈ supported_methods := by decide
    simp only [get_signatures, if_pos hm]
    rw [run_stat_test_eq_core, run_stat_core_ks, hks]
    rfl
  · have hm : "permutation_test" ∈ supported_methods := by decide
    have hsteps : ∀ fx ∈ morph_feats,
        ∃ v, perm_step ptest (np_random_seed seed g) ref_profiles exp_profiles
          nres seed fx = .ok v := by
      intro fx hfx
      rcases hcols fx hfx with ⟨h1, h2⟩
      rcases Option.isSome_iff_exists.mp h1 with ⟨rv, hrv⟩
      rcases Option.isSome_iff_exists.mp h2 with ⟨ev, hev⟩
      exact ⟨_, perm_step_eq ptest _ ref_profiles exp_profiles nres seed fx
        rv ev hrv hev⟩
    have hloopE := dict_loopE_ok_intro
      (perm_step ptest (np_random_seed seed g) ref_profiles exp_profiles nres seed)
      [] morph_feats hsteps
    have hmapform := dict_loop_nil_mapform
      (fun fx => okvalP (perm_step ptest (np_random_seed seed g) ref_profiles
        exp_profiles nres seed fx)) morph_feats
    rcases p_val_correction_spec
        ((dict_keys_after [] morph_feats).map
          (fun k => okvalP (perm_step ptest (np_random_seed seed g) ref_profiles
            exp_profiles nres seed k)))
        fdr_method hcm with ⟨cs, hok, hcslen, _⟩
    have hcore : permutation_core ptest (np_random_seed seed g) ref_profiles
        exp_profiles morph_feats nres fdr_method seed
        = .ok (mk_pval_rows (dict_keys_after [] morph_feats)
            ((dict_keys_after [] morph_feats).map
              (fun k => okvalP (perm_step ptest (np_random_seed seed g) ref_profiles
                exp_profiles nres seed k)))
            cs) := by
      simp only [permutation_core]
      rw [hloopE, hmapform]
      show assemble_core
          (((dict_keys_after [] morph_feats).map
            (fun k => (k, okvalP (perm_step ptest (np_random_seed seed g)
              ref_profiles exp_profiles nres seed k)))).map (fun kv => kv.1))
          (((dict_keys_after [] morph_feats).map
            (fun k => (k, okvalP (perm_step ptest (np_random_seed seed g)
              ref_profiles exp_profiles nres seed k)))).map (fun kv => kv.2))
          fdr_method = _
      rw [map_fst_mapform, map_snd_mapform]
      simp only [assemble_core]
      rw [hok]
    have hfst : (mk_pval_rows (dict_keys_after [] morph_feats)
        ((dict_keys_after [] morph_feats).map
          (fun k => okvalP (perm_step ptest (np_random_seed seed g) ref_profiles
            exp_profiles nres seed k)))
        cs).map (fun r => r.1) = dict_keys_after [] morph_feats :=
      mk_pval_rows_fst _ _ cs (by simp) (by rw [hcslen, List.length_map])
    have hget := get_signatures_fst_ok_intro ks2samp ttest ptest g ref_profiles
      exp_profiles morph_feats "permutation_test" fdr_method t nres seed _ hm
      (by rw [run_stat_core_perm]; exact hcore)
    refine ⟨_, _, hget, ?_⟩
    have hbl : (mk_pval_rows (dict_keys_after [] morph_feats)
        ((dict_keys_after [] morph_feats).map
          (fun k => okvalP (perm_step ptest (np_random_seed seed g) ref_profiles
            exp_profiles nres seed k)))
        cs).length = (dict_keys_after [] morph_feats).length := by
      have := congrArg List.length hfst
      rwa [List.length_map] at this
    have hsplit := length_filter_add_length_filter_not
      (add_significance_label
        (mk_pval_rows (dict_keys_after [] morph_feats)
          ((dict_keys_after [] morph_feats).map
            (fun k => okvalP (perm_step ptest (np_random_seed seed g) ref_profiles
              exp_profiles nres seed k)))
          cs)
        t)
      (fun r => r.is_significant)
    have hdfl : (add_significance_label
        (mk_pval_rows (dict_keys_after [] morph_feats)
          ((dict_keys_after [] morph_feats).map
            (fun k => okvalP (perm_step ptest (np_random_seed seed g) ref_profiles
              exp_profiles nres seed k)))
          cs)
        t).length = (dict_keys_after [] morph_feats).length := by
      simp only [add_significance_label, List.length_map]
      exact hbl
    simp only [List.length_map]
    omega

theorem duplicate_features_divergence_witness :
    (¬ (["A", "A"] : List String).Nodup)
    ∧ ("fdr_bh" ∈ correction_methods)
    ∧ (∀ x ∈ (["A", "A"] : List String),
        (Profile.get refProfA x).isSome ∧ (Profile.get expProfA x).isSome)
    ∧ ((get_signatures ksConst ttConst ptConst 0 refProfA expProfA ["A", "A"]
          "ks_test" "fdr_bh" (mkRat 1 20) 1000 0).1
        = .error (.shapeError "series have different lengths")
      ∧ ∃ on_feats off_feats,
          (get_signatures ksConst ttConst ptConst 0 refProfA expProfA ["A", "A"]
            "permutation_test" "fdr_bh" (mkRat 1 20) 1000 0).1
          = .ok (on_feats, off_feats)
          ∧ on_feats.length + off_feats.length
            < (["A", "A"] : List String).length) := by
  refine ⟨by decide, by decide, by decide, ?_⟩
  exact duplicate_features_divergence ksConst ttConst ptConst 0 refProfA expProfA
    ["A", "A"] "fdr_bh" (mkRat 1 20) 1000 0 (by decide) (by decide) (by decide)
